import Mathlib

/-!
Verification development for the piplapis field/container data model
(`piplapis/data/fields.py`, `piplapis/data/utils.py`,
`build/lib/piplapis/data/containers.py`).

The Python code is shallowly embedded:

* `PyDate` models `datetime.date` as a year/month/day triple; comparisons
  on dates are lexicographic on (year, month, day), exactly as in Python.
  `datetime.datetime` values are modelled as a `PyDate` plus a seconds-of-day
  component (`PyVal.pydatetime`). `to_dict`'s `isinstance(value, datetime.date)`
  branch catches datetime values too (`datetime` subclasses `date`), so a
  stored datetime is emitted as its `isoformat()` with the `T HH:MM:SS` time
  of day (`datetimeToStr`), which `str_to_datetime`'s `%Y-%m-%d` format
  cannot re-parse.
* `PyVal` models the Python runtime values a field attribute can hold;
  `PyVal.truthy` is Python truthiness.
* `JVal` models the JSON/dict wire values produced and consumed by
  `to_dict`/`from_dict`. A dict is an association list built with `dictSet`,
  which models Python `d[k] = v` (replace if the key exists, append otherwise).
* Fallible Python code (constructors or decoders that can raise) is embedded
  as `Except PyErr _`.
* `str.split(sep)` for a one-character separator is `splitOnChar` on the
  character list of a string; `str.strip()` is `pyStrip`; `str.title()` is
  `pyTitle`.

All definitions are translated from the Python source; the one exception is
`specStrictSearchable`, which is written from the specification's words in
order to compare the spec's Address searchability rule with the code's.
-/

set_option linter.unusedVariables false
set_option linter.unnecessarySeqFocus false

instance {ε α : Type} [DecidableEq ε] [DecidableEq α] : DecidableEq (Except ε α)
  | .ok a, .ok b => if h : a = b then .isTrue (by rw [h]) else .isFalse (by simp [h])
  | .ok a, .error b => .isFalse (by simp)
  | .error a, .ok b => .isFalse (by simp)
  | .error a, .error b => if h : a = b then .isTrue (by rw [h]) else .isFalse (by simp [h])

/-- A Python exception kind, as far as the embedded code can raise one. -/
inductive PyErr where
  | valueError (msg : String)
  | attributeError
deriving DecidableEq, Repr

/-- `datetime.date`: a (year, month, day) triple. Validity is a separate
predicate (`ValidDate`), like in Python where the constructor checks it. -/
structure PyDate where
  year : Nat
  month : Nat
  day : Nat
deriving DecidableEq, Repr

/-- Python `date.__lt__`: lexicographic comparison on (year, month, day). -/
def dateLtB (a b : PyDate) : Bool :=
  a.year < b.year ∨ (a.year = b.year ∧ (a.month < b.month ∨ (a.month = b.month ∧ a.day < b.day)))

/-- Python tuple comparison `(a1, a2) < (b1, b2)`, used by `DOB.age`. -/
def pairLtB (a b : Nat × Nat) : Bool :=
  a.1 < b.1 ∨ (a.1 = b.1 ∧ a.2 < b.2)

/-- Gregorian leap-year rule (Python `calendar.isleap` / `datetime`). -/
def isLeap (y : Nat) : Bool := y % 4 = 0 ∧ (¬ y % 100 = 0 ∨ y % 400 = 0)

/-- Days in a month (Python `datetime._days_in_month`). -/
def daysInMonth (y m : Nat) : Nat :=
  if m = 2 then (if isLeap y then 29 else 28)
  else if m = 4 ∨ m = 6 ∨ m = 9 ∨ m = 11 then 30
  else 31

/-- Days before January 1st of year `y` (Python `datetime._days_before_year`). -/
def daysBeforeYear (y : Nat) : Nat :=
  (y - 1) * 365 + (y - 1) / 4 - (y - 1) / 100 + (y - 1) / 400

/-- Days in year `y` preceding month `m` (Python `datetime._days_before_month`). -/
def daysBeforeMonth (y m : Nat) : Nat :=
  ((List.range' 1 (m - 1)).map (daysInMonth y)).foldl (· + ·) 0

/-- `date.toordinal()`: day number with day 1 = January 1 of year 1. -/
def toOrdinal (d : PyDate) : Nat :=
  daysBeforeYear d.year + daysBeforeMonth d.year d.month + d.day

/-- `date.fromordinal(n)` (Python `datetime._ord2ymd`): the 400/100/4/1-year
cycle decomposition, then a scan for the month. -/
def fromOrdinal (n : Nat) : PyDate :=
  let n0 := n - 1
  let n400 := n0 / 146097
  let r400 := n0 % 146097
  let n100 := r400 / 36524
  let r100 := r400 % 36524
  let n4 := r100 / 1461
  let r4 := r100 % 1461
  let n1 := r4 / 365
  let r1 := r4 % 365
  let year := n400 * 400 + 1 + n100 * 100 + n4 * 4 + n1
  if n1 = 4 ∨ n100 = 4 then ⟨year - 1, 12, 31⟩
  else
    let month := (List.range' 1 12).foldl
      (fun acc m => if daysBeforeMonth year m ≤ r1 then m else acc) 1
    ⟨year, month, r1 - daysBeforeMonth year month + 1⟩

/-- A calendar-valid date within `datetime`'s year range (MINYEAR..MAXYEAR). -/
def ValidDate (d : PyDate) : Prop :=
  1 ≤ d.year ∧ d.year ≤ 9999 ∧ 1 ≤ d.month ∧ d.month ≤ 12 ∧
    1 ≤ d.day ∧ d.day ≤ daysInMonth d.year d.month

instance (d : PyDate) : Decidable (ValidDate d) := by
  unfold ValidDate; infer_instance

/-- Decimal digit character for `n < 10` (formatting only ever passes a
single decimal digit). -/
def digitChar : Nat → Char
  | 0 => '0' | 1 => '1' | 2 => '2' | 3 => '3' | 4 => '4'
  | 5 => '5' | 6 => '6' | 7 => '7' | 8 => '8' | _ => '9'

/-- Is `c` an ASCII decimal digit? -/
def isDigitC (c : Char) : Bool := 48 ≤ c.toNat ∧ c.toNat ≤ 57

/-- Parse a list of decimal digit characters, most significant first. -/
def digitsToNat (l : List Char) : Nat :=
  l.foldl (fun acc c => 10 * acc + (c.toNat - 48)) 0

/-- `date_to_str` from `piplapis/data/utils.py`: `d.isoformat()`, i.e. the
fixed-width, zero-padded `YYYY-MM-DD` rendering (`datetime` years are at
most 9999, so four year digits). -/
def dateToStr (d : PyDate) : String :=
  ⟨[digitChar (d.year / 1000 % 10), digitChar (d.year / 100 % 10),
    digitChar (d.year / 10 % 10), digitChar (d.year % 10), '-',
    digitChar (d.month / 10 % 10), digitChar (d.month % 10), '-',
    digitChar (d.day / 10 % 10), digitChar (d.day % 10)]⟩

/-- `date_to_str` applied to a `datetime.datetime` value, as `Field.to_dict`
does: `datetime` is a subclass of `datetime.date`, so the
`isinstance(value, datetime.date)` branch catches datetimes too and emits
`dt.isoformat()` — the date part followed by `T` and the zero-padded
`HH:MM:SS` time of day (the model stores whole seconds, so there is no
microseconds part). -/
def datetimeToStr (d : PyDate) (secs : Nat) : String :=
  ⟨(dateToStr d).data ++
    ['T', digitChar (secs / 36000 % 10), digitChar (secs / 3600 % 10), ':',
     digitChar (secs % 3600 / 600 % 10), digitChar (secs % 3600 / 60 % 10), ':',
     digitChar (secs % 60 / 10 % 10), digitChar (secs % 60 % 10)]⟩

/-- Split a character list on a separator character; models Python
`str.split(sep)` for a one-character `sep` (`"".split(sep) == [""]`). -/
def splitOnChar (c : Char) (l : List Char) : List (List Char) :=
  match l with
  | [] => [[]]
  | x :: xs =>
    match splitOnChar c xs with
    | [] => [[]]
    | g :: gs => if x = c then [] :: g :: gs else (x :: g) :: gs

/-- `str_to_date` from `piplapis/data/utils.py`:
`datetime.datetime.strptime(s, "%Y-%m-%d").date()`. `%Y` matches exactly four
digits, `%m`/`%d` one or two; the whole string must be consumed; the values
must form a calendar-valid date (otherwise `ValueError`). -/
def strToDateGroups (ys ms ds : List Char) : Except PyErr PyDate :=
  if ys.length = 4 ∧ ys.all isDigitC ∧
      1 ≤ ms.length ∧ ms.length ≤ 2 ∧ ms.all isDigitC ∧
      1 ≤ ds.length ∧ ds.length ≤ 2 ∧ ds.all isDigitC then
    if ValidDate ⟨digitsToNat ys, digitsToNat ms, digitsToNat ds⟩ then
      .ok ⟨digitsToNat ys, digitsToNat ms, digitsToNat ds⟩
    else .error (.valueError "time data does not match format")
  else .error (.valueError "time data does not match format")

def strToDate (s : String) : Except PyErr PyDate :=
  match splitOnChar '-' s.data with
  | [ys, ms, ds] => strToDateGroups ys ms ds
  | _ => .error (.valueError "time data does not match format")

/-- `DateRange`'s stored state: `start` and `end` dates (either may be
absent). A falsy (empty-string) endpoint coming off the wire is represented
as `none`; it is falsy in every use the library makes of an endpoint. -/
structure DRange where
  start : Option PyDate
  stop : Option PyDate
deriving DecidableEq, Repr

/-- `DateRange.__init__`: swap the endpoints when both are given and
`start > end`. -/
def DateRange.make (start stop : Option PyDate) : DRange :=
  match start, stop with
  | some s, some e => if dateLtB e s then ⟨some e, some s⟩ else ⟨some s, some e⟩
  | s, e => ⟨s, e⟩

/-- `DateRange.middle`: the start (or end) when only one endpoint is present,
otherwise `start + (end - start)/2`; `date + timedelta` keeps whole days only,
so the division is floor division on days. -/
def DRange.middle (r : DRange) : Option PyDate :=
  match r.start, r.stop with
  | some s, some e => some (fromOrdinal (toOrdinal s + (toOrdinal e - toOrdinal s) / 2))
  | some s, none => some s
  | none, some e => some e
  | none, none => none

/-- `DateRange.from_years_range`: January 1 of the start year to
December 31 of the end year. -/
def DateRange.from_years_range (start_year end_year : Nat) : DRange :=
  DateRange.make (some ⟨start_year, 1, 1⟩) (some ⟨end_year, 12, 31⟩)

/-- `DateRange.to_dict`: emit each endpoint that is truthy (a date object is
always truthy) as a `YYYY-MM-DD` string. -/
def DRange.to_dict (r : DRange) : List (String × String) :=
  (match r.start with | some s => [("start", dateToStr s)] | none => []) ++
  (match r.stop with | some e => [("end", dateToStr e)] | none => [])

/-- Python `d.get(k)` on a string-valued dict. -/
def sLookup (d : List (String × String)) (k : String) : Option String :=
  (d.find? (fun p => p.1 = k)).map (·.2)

/-- Truthiness of `d.get(k)`: the key is present with a non-empty value. -/
def truthyS : Option String → Bool
  | some s => s ≠ ""
  | none => false

/-- One endpoint of `DateRange.from_dict`: a truthy value is parsed with
`str_to_date`; a falsy one is kept as-is (represented as `none`). -/
def parseEndpoint : Option String → Except PyErr (Option PyDate)
  | some v => if v = "" then .ok Option.none else (strToDate v).map some
  | Option.none => .ok Option.none

/-- `DateRange.from_dict`: raise `ValueError` when neither endpoint value is
truthy; parse each truthy endpoint with `str_to_date`; build via the
normalizing constructor. -/
def DateRange.from_dict (d : List (String × String)) : Except PyErr DRange := do
  let start := sLookup d "start"
  let stop := sLookup d "end"
  if ¬ (truthyS start ∨ truthyS stop) then
    .error (.valueError "DateRange must have at least a start or an end date")
  else do
    let s ← parseEndpoint start
    let e ← parseEndpoint stop
    pure (DateRange.make s e)

/-- A Python runtime value stored in a field attribute. `pydatetime` carries
a date plus seconds-of-day (the wire format keeps only the date). `pdict` is
a raw decoded dict value (only reachable from hand-written wire input). -/
inductive PyVal where
  | none
  | str (s : String)
  | int (n : Int)
  | bool (b : Bool)
  | floatv (q : Rat)
  | pydate (d : PyDate)
  | pydatetime (d : PyDate) (secs : Nat)
  | drange (r : DRange)
  | pdict (kvs : List (String × String))
deriving DecidableEq, Repr

/-- Python truthiness of a stored value. Date, datetime, and `DateRange`
objects are always truthy (no `__bool__`/`__len__`). -/
def PyVal.truthy : PyVal → Bool
  | .none => false
  | .str s => s ≠ ""
  | .int n => n ≠ 0
  | .bool b => b
  | .floatv q => q ≠ 0
  | .pydate _ => true
  | .pydatetime _ _ => true
  | .drange _ => true
  | .pdict kvs => kvs ≠ []

/-- A JSON/dict wire value as produced by `to_dict`. Nested dicts only occur
for `DateRange`, whose dict is string-valued (`dobj`). -/
inductive JVal where
  | str (s : String)
  | int (n : Int)
  | bool (b : Bool)
  | num (q : Rat)
  | dobj (kvs : List (String × String))
deriving DecidableEq, Repr

/-- A wire dict: insertion-ordered string-keyed association list. -/
abbrev Dict := List (String × JVal)

/-- Python `d[k] = v`: replace the value if the key is present, else append. -/
def dictSet (d : Dict) (k : String) (v : JVal) : Dict :=
  if d.any (fun p => p.1 = k) then
    d.map (fun p => if p.1 = k then (k, v) else p)
  else d ++ [(k, v)]

/-- Python `d.get(k)` on a wire dict. -/
def dlookup (d : Dict) (k : String) : Option JVal :=
  (d.find? (fun p => p.1 = k)).map (·.2)

/-- A field's stored attribute assignment: attribute name to value, in the
declared attribute order (`base_attributes ++ attributes ++ children`). -/
abbrev FieldState := List (String × PyVal)

/-- Python `getattr(self, a)` on a field (absent attribute reads as `None`;
a stored field state always carries every declared attribute). -/
def fgetattr (st : FieldState) (a : String) : PyVal :=
  (((st.find? (fun p => p.1 = a)).map (·.2)).getD .none)

/-- Python `object.__setattr__` on a field state: replace or append. -/
def fsetRaw (st : FieldState) (a : String) (v : PyVal) : FieldState :=
  if st.any (fun p => p.1 = a) then
    st.map (fun p => if p.1 = a then (a, v) else p)
  else st ++ [(a, v)]

/-- `Field.validate_type` wrapped by `Field.__setattr__`: an invalid type
value is logged and coerced to `None`; `None` and members of `types_set`
are stored unchanged. (Non-string values are never in the set, so they
coerce to `None` as well.) -/
def validateTypeCoerce (types_set : List String) (v : PyVal) : PyVal :=
  match v with
  | .none => .none
  | .str s => if s ∈ types_set then .str s else .none
  | _ => .none

/-- `Field.__setattr__`: only assignments to the attribute named `type` are
intercepted (and validated against the variant's `types_set`). -/
def fieldSetattr (types_set : List String) (st : FieldState) (a : String) (v : PyVal) : FieldState :=
  if a = "type" then fsetRaw st a (validateTypeCoerce types_set v)
  else fsetRaw st a v

/-- Python `str.strip()` (ASCII whitespace). -/
def isPySpace (c : Char) : Bool :=
  c = ' ' ∨ c = '\t' ∨ c = '\n' ∨ c = '\x0d' ∨ c = '\x0b' ∨ c = '\x0c'

/-- Python `str.strip()` on a character list. -/
def pyStrip (l : List Char) : List Char :=
  ((l.dropWhile isPySpace).reverse.dropWhile isPySpace).reverse

/-- Python `str.title()` (ASCII letters): the first letter of each
alphabetic run is uppercased, the rest lowercased. -/
def pyTitleAux : Bool → List Char → List Char
  | _, [] => []
  | prevAlpha, c :: rest =>
    (if c.isAlpha then (if prevAlpha then c.toLower else c.toUpper) else c) ::
      pyTitleAux c.isAlpha rest

/-- Python `str.title()`. -/
def pyTitle (s : String) : String := ⟨pyTitleAux false s.data⟩

/-- Python `s.replace("_", " ")` (single-character pattern). -/
def pyReplaceUnderscore (s : String) : String :=
  ⟨s.data.map (fun c => if c = '_' then ' ' else c)⟩

/-- Python `str.upper()` (character-wise). -/
def pyUpper (s : String) : String := ⟨s.data.map Char.toUpper⟩

/-- Python `str.lower()` (character-wise). -/
def pyLower (s : String) : String := ⟨s.data.map Char.toLower⟩

/-- Python `a or b` on runtime values: the first operand if truthy, else the
second. -/
def pyOr (a b : PyVal) : PyVal := if a.truthy then a else b

/-- Key lookup in a code table (`k in TABLE` / `TABLE.get(k)`). -/
def tblGet {α : Type} (t : List (String × α)) (k : String) : Option α :=
  (t.find? (fun p => p.1 = k)).map (·.2)

/-- The COUNTRIES code-to-name table from piplapis/data/utils.py, embedded verbatim. -/
def COUNTRIES : List (String × String) := [
  ("BD", "Bangladesh"),
  ("WF", "Wallis And Futuna Islands"),
  ("BF", "Burkina Faso"),
  ("PY", "Paraguay"),
  ("BA", "Bosnia And Herzegovina"),
  ("BB", "Barbados"),
  ("BE", "Belgium"),
  ("BM", "Bermuda"),
  ("BN", "Brunei Darussalam"),
  ("BO", "Bolivia"),
  ("BH", "Bahrain"),
  ("BI", "Burundi"),
  ("BJ", "Benin"),
  ("BT", "Bhutan"),
  ("JM", "Jamaica"),
  ("BV", "Bouvet Island"),
  ("BW", "Botswana"),
  ("WS", "Samoa"),
  ("BR", "Brazil"),
  ("BS", "Bahamas"),
  ("JE", "Jersey"),
  ("BY", "Belarus"),
  ("BZ", "Belize"),
  ("R", "Russian Federation"),
  ("RW", "Rwanda"),
  ("LT", "Lithuania"),
  ("RE", "Reunion"),
  ("TM", "Turkmenistan"),
  ("TJ", "Tajikistan"),
  ("RO", "Romania"),
  ("LS", "Lesotho"),
  ("GW", "Guinea-bissa"),
  ("G", "Guam"),
  ("GT", "Guatemala"),
  ("GS", "South Georgia And South Sandwich Islands"),
  ("GR", "Greece"),
  ("GQ", "Equatorial Guinea"),
  ("GP", "Guadeloupe"),
  ("JP", "Japan"),
  ("GY", "Guyana"),
  ("GG", "Guernsey"),
  ("GF", "French Guiana"),
  ("GE", "Georgia"),
  ("GD", "Grenada"),
  ("GB", "Great Britain"),
  ("GA", "Gabon"),
  ("GN", "Guinea"),
  ("GM", "Gambia"),
  ("GL", "Greenland"),
  ("GI", "Gibraltar"),
  ("GH", "Ghana"),
  ("OM", "Oman"),
  ("TN", "Tunisia"),
  ("JO", "Jordan"),
  ("HR", "Croatia"),
  ("HT", "Haiti"),
  ("SV", "El Salvador"),
  ("HK", "Hong Kong"),
  ("HN", "Honduras"),
  ("HM", "Heard And Mcdonald Islands"),
  ("AD", "Andorra"),
  ("PR", "Puerto Rico"),
  ("PS", "Palestine"),
  ("PW", "Pala"),
  ("PT", "Portugal"),
  ("SJ", "Svalbard And Jan Mayen Islands"),
  ("VG", "Virgin Islands, British"),
  ("AI", "Anguilla"),
  ("KP", "North Korea"),
  ("PF", "French Polynesia"),
  ("PG", "Papua New Guinea"),
  ("PE", "Per"),
  ("PK", "Pakistan"),
  ("PH", "Philippines"),
  ("PN", "Pitcairn"),
  ("PL", "Poland"),
  ("PM", "Saint Pierre And Miquelon"),
  ("ZM", "Zambia"),
  ("EH", "Western Sahara"),
  ("EE", "Estonia"),
  ("EG", "Egypt"),
  ("ZA", "South Africa"),
  ("EC", "Ecuador"),
  ("IT", "Italy"),
  ("AO", "Angola"),
  ("KZ", "Kazakhstan"),
  ("ET", "Ethiopia"),
  ("ZW", "Zimbabwe"),
  ("SA", "Saudi Arabia"),
  ("ES", "Spain"),
  ("ER", "Eritrea"),
  ("ME", "Montenegro"),
  ("MD", "Moldova"),
  ("MG", "Madagascar"),
  ("MA", "Morocco"),
  ("MC", "Monaco"),
  ("UZ", "Uzbekistan"),
  ("MM", "Myanmar"),
  ("ML", "Mali"),
  ("MO", "Maca"),
  ("MN", "Mongolia"),
  ("MH", "Marshall Islands"),
  ("US", "United States"),
  ("UM", "United States Minor Outlying Islands"),
  ("MT", "Malta"),
  ("MW", "Malawi"),
  ("MV", "Maldives"),
  ("MQ", "Martinique"),
  ("MP", "Northern Mariana Islands"),
  ("MS", "Montserrat"),
  ("NA", "Namibia"),
  ("IM", "Isle Of Man"),
  ("UG", "Uganda"),
  ("MY", "Malaysia"),
  ("MX", "Mexico"),
  ("IL", "Israel"),
  ("BG", "Bulgaria"),
  ("FR", "France"),
  ("AW", "Aruba"),
  ("AX", "\u00C3\u0085land"),
  ("FI", "Finland"),
  ("FJ", "Fiji"),
  ("FK", "Falkland Islands"),
  ("FM", "Micronesia"),
  ("FO", "Faroe Islands"),
  ("NI", "Nicaragua"),
  ("NL", "Netherlands"),
  ("NO", "Norway"),
  ("SO", "Somalia"),
  ("NC", "New Caledonia"),
  ("NE", "Niger"),
  ("NF", "Norfolk Island"),
  ("NG", "Nigeria"),
  ("NZ", "New Zealand"),
  ("NP", "Nepal"),
  ("NR", "Naur"),
  ("N", "Niue"),
  ("MR", "Mauritania"),
  ("CK", "Cook Islands"),
  ("CI", "C\u00C3\u00B4te D\u0027ivoire"),
  ("CH", "Switzerland"),
  ("CO", "Colombia"),
  ("CN", "China"),
  ("CM", "Cameroon"),
  ("CL", "Chile"),
  ("CC", "Cocos (keeling) Islands"),
  ("CA", "Canada"),
  ("CG", "Congo (brazzaville)"),
  ("CF", "Central African Republic"),
  ("CD", "Congo (kinshasa)"),
  ("CZ", "Czech Republic"),
  ("CY", "Cyprus"),
  ("CX", "Christmas Island"),
  ("CS", "Serbia"),
  ("CR", "Costa Rica"),
  ("H", "Hungary"),
  ("CV", "Cape Verde"),
  ("C", "Cuba"),
  ("SZ", "Swaziland"),
  ("SY", "Syria"),
  ("KG", "Kyrgyzstan"),
  ("KE", "Kenya"),
  ("SR", "Suriname"),
  ("KI", "Kiribati"),
  ("KH", "Cambodia"),
  ("KN", "Saint Kitts And Nevis"),
  ("KM", "Comoros"),
  ("ST", "Sao Tome And Principe"),
  ("SK", "Slovakia"),
  ("KR", "South Korea"),
  ("SI", "Slovenia"),
  ("SH", "Saint Helena"),
  ("KW", "Kuwait"),
  ("SN", "Senegal"),
  ("SM", "San Marino"),
  ("SL", "Sierra Leone"),
  ("SC", "Seychelles"),
  ("SB", "Solomon Islands"),
  ("KY", "Cayman Islands"),
  ("SG", "Singapore"),
  ("SE", "Sweden"),
  ("SD", "Sudan"),
  ("DO", "Dominican Republic"),
  ("DM", "Dominica"),
  ("DJ", "Djibouti"),
  ("DK", "Denmark"),
  ("DE", "Germany"),
  ("YE", "Yemen"),
  ("AT", "Austria"),
  ("DZ", "Algeria"),
  ("MK", "Macedonia"),
  ("UY", "Uruguay"),
  ("YT", "Mayotte"),
  ("M", "Mauritius"),
  ("TZ", "Tanzania"),
  ("LC", "Saint Lucia"),
  ("LA", "Laos"),
  ("TV", "Tuval"),
  ("TW", "Taiwan"),
  ("TT", "Trinidad And Tobago"),
  ("TR", "Turkey"),
  ("LK", "Sri Lanka"),
  ("LI", "Liechtenstein"),
  ("LV", "Latvia"),
  ("TO", "Tonga"),
  ("TL", "Timor-leste"),
  ("L", "Luxembourg"),
  ("LR", "Liberia"),
  ("TK", "Tokela"),
  ("TH", "Thailand"),
  ("TF", "French Southern Lands"),
  ("TG", "Togo"),
  ("TD", "Chad"),
  ("TC", "Turks And Caicos Islands"),
  ("LY", "Libya"),
  ("VA", "Vatican City"),
  ("AC", "Ascension Island"),
  ("VC", "Saint Vincent And The Grenadines"),
  ("AE", "United Arab Emirates"),
  ("VE", "Venezuela"),
  ("AG", "Antigua And Barbuda"),
  ("AF", "Afghanistan"),
  ("IQ", "Iraq"),
  ("VI", "Virgin Islands, U.s."),
  ("IS", "Iceland"),
  ("IR", "Iran"),
  ("AM", "Armenia"),
  ("AL", "Albania"),
  ("VN", "Vietnam"),
  ("AN", "Netherlands Antilles"),
  ("AQ", "Antarctica"),
  ("AS", "American Samoa"),
  ("AR", "Argentina"),
  ("A", "Australia"),
  ("V", "Vanuat"),
  ("IO", "British Indian Ocean Territory"),
  ("IN", "India"),
  ("LB", "Lebanon"),
  ("AZ", "Azerbaijan"),
  ("IE", "Ireland"),
  ("ID", "Indonesia"),
  ("PA", "Panama"),
  ("UA", "Ukraine"),
  ("QA", "Qatar"),
  ("MZ", "Mozambique"),
  ("BL", "Saint Barth\u00E9lemy"),
  ("BQ", "Caribbean Netherlands"),
  ("MF", "Saint Martin"),
  ("SS", "South Sudan"),
  ("SX", "Sint Maarten"),
  ("XK", "Kosovo"),
  ("CW", "Cura\u00E7ao"),
  ("RS", "Serbia")]

/-- The STATES nested code table from piplapis/data/utils.py, embedded verbatim. -/
def STATES : List (String × List (String × String)) := [
  ("US", [("WA", "Washington"), ("VA", "Virginia"), ("DE", "Delaware"), ("DC", "District Of Columbia"), ("WI", "Wisconsin"), ("WV", "West Virginia"), ("HI", "Hawaii"), ("FL", "Florida"), ("YT", "Yukon"), ("WY", "Wyoming"), ("PR", "Puerto Rico"), ("NJ", "New Jersey"), ("NM", "New Mexico"), ("TX", "Texas"), ("LA", "Louisiana"), ("NC", "North Carolina"), ("ND", "North Dakota"), ("NE", "Nebraska"), ("FM", "Federated States Of Micronesia"), ("TN", "Tennessee"), ("NY", "New York"), ("PA", "Pennsylvania"), ("CT", "Connecticut"), ("RI", "Rhode Island"), ("NV", "Nevada"), ("NH", "New Hampshire"), ("G", "Guam"), ("CO", "Colorado"), ("VI", "Virgin Islands"), ("AK", "Alaska"), ("AL", "Alabama"), ("AS", "American Samoa"), ("AR", "Arkansas"), ("VT", "Vermont"), ("IL", "Illinois"), ("GA", "Georgia"), ("IN", "Indiana"), ("IA", "Iowa"), ("MA", "Massachusetts"), ("AZ", "Arizona"), ("CA", "California"), ("ID", "Idaho"), ("PW", "Pala"), ("ME", "Maine"), ("MD", "Maryland"), ("OK", "Oklahoma"), ("OH", "Ohio"), ("UT", "Utah"), ("MO", "Missouri"), ("MN", "Minnesota"), ("MI", "Michigan"), ("MH", "Marshall Islands"), ("KS", "Kansas"), ("MT", "Montana"), ("MP", "Northern Mariana Islands"), ("MS", "Mississippi"), ("SC", "South Carolina"), ("KY", "Kentucky"), ("OR", "Oregon"), ("SD", "South Dakota")]),
  ("CA", [("AB", "Alberta"), ("BC", "British Columbia"), ("MB", "Manitoba"), ("NB", "New Brunswick"), ("NT", "Northwest Territories"), ("NS", "Nova Scotia"), ("N", "Nunavut"), ("ON", "Ontario"), ("PE", "Prince Edward Island"), ("QC", "Quebec"), ("SK", "Saskatchewan"), ("Y", "Yukon"), ("NL", "Newfoundland and Labrador")]),
  ("A", [("WA", "State of Western Australia"), ("SA", "State of South Australia"), ("NT", "Northern Territory"), ("VIC", "State of Victoria"), ("TAS", "State of Tasmania"), ("QLD", "State of Queensland"), ("NSW", "State of New South Wales"), ("ACT", "Australian Capital Territory")]),
  ("GB", [("WLS", "Wales"), ("SCT", "Scotland"), ("NIR", "Northern Ireland"), ("ENG", "England")])]

/-- How a variant's constructor treats its `content` argument:
most variants store it unchanged; `Gender.content`'s property setter calls
`value.lower()` (raising `AttributeError` on `None`) and nulls values whose
lowercase form is not a known gender; `Ethnicity.__init__` stores
`content.lower()` (also raising `AttributeError` on `None`). -/
inductive ContentRule where
  | plain
  | genderRule
  | ethnicityRule
deriving DecidableEq, Repr

/-- `Gender.genders`. -/
def genders : List String := ["male", "female"]

/-- A field variant descriptor: the class-level `attributes`, `children` and
`types_set` tuples, the content rule, the computed `display` property when the
variant computes one (when `none`, `display` is a stored child backed by
`_display`), and whether `to_dict` re-appends `display_international`
(`Phone.to_dict`). -/
structure FieldDesc where
  attributes : List String
  children : List String
  types_set : List String
  contentRule : ContentRule
  displayFn : Option (FieldState → PyVal)
  phoneExtra : Bool

/-- `Field.base_attributes`. -/
def baseAttributes : List String := ["valid_since", "inferred", "last_seen", "current"]

/-- All attributes a variant's constructor stores, in declaration order. -/
def storedAttrs (desc : FieldDesc) : List String :=
  baseAttributes ++ desc.attributes ++ desc.children

/-- The (dict-key prefix, attribute) pairs `Field.to_dict` iterates:
base attributes and `attributes` carry the reserved `@` prefix, children
none. -/
def prefixedAttrs (desc : FieldDesc) : List (String × String) :=
  baseAttributes.map (fun a => ("@", a)) ++ desc.attributes.map (fun a => ("@", a)) ++
    desc.children.map (fun a => ("", a))

/-- The constructor keyword name of an attribute (`type` is the `type_`
parameter). -/
def paramName (a : String) : String := if a = "type" then "type_" else a

/-- The `display` value `to_dict` reads: the computed property when the
variant has one, else the stored `_display` child. -/
def displayValue (desc : FieldDesc) (st : FieldState) : PyVal :=
  match desc.displayFn with
  | some f => f st
  | Option.none => fgetattr st "display"

/-- One attribute's wire emission in `Field.to_dict`: `Serializable` values
become their dict, dates become `YYYY-MM-DD` strings, and the converted
value is kept when it is truthy or the original is a bool/int. A datetime is
caught by the `isinstance(value, datetime.date)` branch (`datetime`
subclasses `date`), so it is emitted as its full `isoformat()` with the
`T HH:MM:SS` time of day; the subsequent
`isinstance(value, datetime.datetime)` branch is dead code, the value being
already a string by then. -/
def emitVal : PyVal → Option JVal
  | .none => Option.none
  | .str s => if s = "" then Option.none else some (.str s)
  | .int n => some (.int n)
  | .bool b => some (.bool b)
  | .floatv q => if q = 0 then Option.none else some (.num q)
  | .pydate d => some (.str (dateToStr d))
  | .pydatetime d s => some (.str (datetimeToStr d s))
  | .drange r => if r.to_dict = [] then Option.none else some (.dobj r.to_dict)
  | .pdict kvs => if kvs = [] then Option.none else some (.dobj kvs)

/-- The raw value written by `d["display"] = self.display` (and by
`Phone.to_dict` for `display_international`): no conversion is applied; in
practice the value is a string. -/
def encodeDisplay : PyVal → JVal
  | .str s => .str s
  | .int n => .int n
  | .bool b => .bool b
  | .floatv q => .num q
  | .pydate d => .str (dateToStr d)
  | .pydatetime d s => .str (datetimeToStr d s)
  | .drange r => .dobj r.to_dict
  | .pdict kvs => .dobj kvs
  | .none => .str ""

/-- The write `d["display"] = self.display` guarded by the truthiness check
at the end of `Field.to_dict`. -/
def displayStep (desc : FieldDesc) (st : FieldState) (d : Dict) : Dict :=
  if (displayValue desc st).truthy then
    dictSet d "display" (encodeDisplay (displayValue desc st))
  else d

/-- The extra `display_international` write of `Phone.to_dict`. -/
def phoneStep (desc : FieldDesc) (st : FieldState) (d : Dict) : Dict :=
  if desc.phoneExtra then
    if (fgetattr st "display_international").truthy then
      dictSet d "display_international" (encodeDisplay (fgetattr st "display_international"))
    else d
  else d

/-- `Field.to_dict`: iterate base attributes, `attributes` and `children`
with their prefixes, emitting each non-null/non-default value; then append
the truthy `display`; `Phone.to_dict` finally re-appends
`display_international`. -/
def fieldToDict (desc : FieldDesc) (st : FieldState) : Dict :=
  phoneStep desc st (displayStep desc st
    ((prefixedAttrs desc).foldl (fun d pa =>
      match emitVal (fgetattr st pa.2) with
      | some jv => dictSet d (pa.1 ++ pa.2) jv
      | Option.none => d) []))

/-- `key[1:]` applied when a dict key starts with the reserved `@` prefix
(`Field.from_dict`). -/
def stripAt (k : String) : String :=
  match k.data with
  | '@' :: rest => ⟨rest⟩
  | _ => k

/-- A wire value handed through to a constructor keyword unchanged. -/
def jvalToPyVal : JVal → PyVal
  | .str s => .str s
  | .int n => .int n
  | .bool b => .bool b
  | .num q => .floatv q
  | .dobj kvs => .pdict kvs

/-- `str_to_datetime` applied to a wire value (`strptime` needs a string). -/
def strToDatetimeJ : JVal → Except PyErr PyVal
  | .str s => (strToDate s).map (fun d => .pydatetime d 0)
  | _ => .error (.valueError "strptime argument is not a string")

/-- `DateRange.from_dict` applied to a wire value (needs a dict). -/
def dateRangeFromDictJ : JVal → Except PyErr PyVal
  | .dobj kvs => (DateRange.from_dict kvs).map .drange
  | _ => .error (.valueError "DateRange.from_dict argument is not a dict")

/-- One item of `Field.from_dict`'s loop: strip the `@` prefix, rename
`type` to `type_`, parse `valid_since`/`last_seen` datetimes and the nested
`date_range`, pass everything else through. -/
def decodeEntry (k : String) (jv : JVal) : Except PyErr (String × PyVal) :=
  if stripAt k = "type" then .ok ("type_", jvalToPyVal jv)
  else if stripAt k = "valid_since" then
    (strToDatetimeJ jv).map (fun v => ("valid_since", v))
  else if stripAt k = "last_seen" then
    (strToDatetimeJ jv).map (fun v => ("last_seen", v))
  else if stripAt k = "date_range" then
    (dateRangeFromDictJ jv).map (fun v => ("date_range", v))
  else .ok (stripAt k, jvalToPyVal jv)

/-- `Field.from_dict`'s loop over `d.items()`, building the kwargs. -/
def decodeItems : Dict → Except PyErr (List (String × PyVal))
  | [] => .ok []
  | (k, jv) :: rest => do
    let p ← decodeEntry k jv
    let ps ← decodeItems rest
    .ok (p :: ps)

/-- Keyword-argument lookup (`kwargs` binding by parameter name). -/
def lookupKw (kwargs : List (String × PyVal)) (k : String) : Option PyVal :=
  (kwargs.find? (fun p => p.1 = k)).map (·.2)

/-- The effect of the constructor's assignment of attribute `a`:
`self.type = type_` is intercepted by `__setattr__` and coerced;
`content` follows the variant's content rule; everything else is stored
unchanged. -/
def setVal (desc : FieldDesc) (a : String) (v : PyVal) : Except PyErr PyVal :=
  if a = "type" then .ok (validateTypeCoerce desc.types_set v)
  else if a = "content" then
    match desc.contentRule with
    | .plain => .ok v
    | .genderRule =>
      match v with
      | .str s => .ok (if pyLower s ∈ genders then .str s else .none)
      | _ => .error .attributeError
    | .ethnicityRule =>
      match v with
      | .str s => .ok (.str (pyLower s))
      | _ => .error .attributeError
  else .ok v

/-- The constructor run over the declared attributes: each stored attribute
is bound from the keyword arguments (missing ones default to `None`, extra
keywords are swallowed by `**kwargs`) and assigned through `setVal`. -/
def constructAttrs (desc : FieldDesc) (kwargs : List (String × PyVal)) :
    List String → Except PyErr FieldState
  | [] => .ok []
  | a :: rest => do
    let v ← setVal desc a ((lookupKw kwargs (paramName a)).getD .none)
    let st ← constructAttrs desc kwargs rest
    .ok ((a, v) :: st)

/-- `cls(**kwargs)` for a field variant. -/
def construct (desc : FieldDesc) (kwargs : List (String × PyVal)) : Except PyErr FieldState :=
  constructAttrs desc kwargs (storedAttrs desc)

/-- `Field.from_dict`: decode the dict items into kwargs, then call the
constructor. -/
def fieldFromDict (desc : FieldDesc) (d : Dict) : Except PyErr FieldState := do
  construct desc (← decodeItems d)

/-- `Gender.display`: `content.title()` when content is truthy. -/
def genderDisplay (st : FieldState) : PyVal :=
  match fgetattr st "content" with
  | .str s => if s = "" then .none else .str (pyTitle s)
  | _ => .none

/-- `Ethnicity.display`: `content.replace("_", " ").title()` when truthy. -/
def ethnicityDisplay (st : FieldState) : PyVal :=
  match fgetattr st "content" with
  | .str s => if s = "" then .none else .str (pyTitle (pyReplaceUnderscore s))
  | _ => .none

/-- `Email.display`: `address or address_md5`. -/
def emailDisplay (st : FieldState) : PyVal :=
  pyOr (fgetattr st "address") (fgetattr st "address_md5")

/-- `Image.display`: the `url`. -/
def imageDisplay (st : FieldState) : PyVal := fgetattr st "url"

/-- `URL.display`: `url or name`. -/
def urlDisplay (st : FieldState) : PyVal :=
  pyOr (fgetattr st "url") (fgetattr st "name")

/-- `Username.display` / `UserID.display` / `Tag.display`: the `content`. -/
def contentDisplay (st : FieldState) : PyVal := fgetattr st "content"

/-- `OriginCountry.display`: `COUNTRIES.get(country.upper())` when the
country is truthy. -/
def originCountryDisplay (st : FieldState) : PyVal :=
  match fgetattr st "country" with
  | .str s =>
    if s = "" then .none
    else match tblGet COUNTRIES (pyUpper s) with
      | some full => .str full
      | Option.none => .none
  | _ => .none

/-- The `Name` variant. -/
def nameDesc : FieldDesc :=
  ⟨["type"], ["prefix", "first", "middle", "last", "suffix", "raw", "display"],
    ["present", "maiden", "former", "alias", "alternative", "autogenerated"],
    .plain, Option.none, false⟩

/-- The `Address` variant. -/
def addressDesc : FieldDesc :=
  ⟨["type"],
    ["country", "state", "city", "po_box", "zip_code", "street", "house", "apartment",
      "raw", "display"],
    ["home", "work", "old"], .plain, Option.none, false⟩

/-- The `Phone` variant. -/
def phoneDesc : FieldDesc :=
  ⟨["type"], ["country_code", "number", "extension", "raw", "display", "display_international"],
    ["mobile", "home_phone", "home_fax", "work_phone", "work_fax", "pager"],
    .plain, Option.none, true⟩

/-- The `Email` variant. -/
def emailDesc : FieldDesc :=
  ⟨["type", "disposable", "email_provider"], ["address", "address_md5"],
    ["personal", "work"], .plain, some emailDisplay, false⟩

/-- The `Job` variant. -/
def jobDesc : FieldDesc :=
  ⟨[], ["title", "organization", "industry", "date_range", "display"], [],
    .plain, Option.none, false⟩

/-- The `Education` variant. -/
def educationDesc : FieldDesc :=
  ⟨[], ["degree", "school", "date_range", "display"], [], .plain, Option.none, false⟩

/-- The `Image` variant. -/
def imageDesc : FieldDesc :=
  ⟨[], ["url", "thumbnail_token"], [], .plain, some imageDisplay, false⟩

/-- The `OriginCountry` variant. -/
def originCountryDesc : FieldDesc :=
  ⟨[], ["country"], [], .plain, some originCountryDisplay, false⟩

/-- The `Language` variant. -/
def languageDesc : FieldDesc :=
  ⟨[], ["language", "region", "display"], [], .plain, Option.none, false⟩

/-- The `Username` variant (children inherited from `Field`). -/
def usernameDesc : FieldDesc :=
  ⟨[], ["content"], [], .plain, some contentDisplay, false⟩

/-- The `UserID` variant (children inherited from `Field`). -/
def useridDesc : FieldDesc :=
  ⟨[], ["content"], [], .plain, some contentDisplay, false⟩

/-- The `DOB` variant. -/
def dobDesc : FieldDesc :=
  ⟨[], ["date_range", "display"], [], .plain, Option.none, false⟩

/-- The `URL` variant (`categories_set` is not `types_set`; the inherited
`types_set` is empty). -/
def urlDesc : FieldDesc :=
  ⟨["category", "sponsored", "domain", "name", "source_id"], ["url"], [],
    .plain, some urlDisplay, false⟩

/-- The `Tag` variant (children inherited from `Field`). -/
def tagDesc : FieldDesc :=
  ⟨["classification"], ["content"], [], .plain, some contentDisplay, false⟩

/-- The `Gender` variant. -/
def genderDesc : FieldDesc :=
  ⟨[], ["content"], [], .genderRule, some genderDisplay, false⟩

/-- The `Ethnicity` variant. -/
def ethnicityDesc : FieldDesc :=
  ⟨[], ["content"], [], .ethnicityRule, some ethnicityDisplay, false⟩

/-- All sixteen concrete field variants. -/
def allFieldDescs : List FieldDesc :=
  [nameDesc, addressDesc, phoneDesc, emailDesc, jobDesc, educationDesc, imageDesc,
    originCountryDesc, languageDesc, usernameDesc, useridDesc, dobDesc, urlDesc,
    tagDesc, genderDesc, ethnicityDesc]

/-- The attribute name as it appears in `Field.__repr__`'s keyword list
(`type` renders as `type_`). -/
def reprName (a : String) : String := if a = "type" then "type_" else a

/-- `attr.startswith("display")`. -/
def startsWithDisplay (a : String) : Bool := a.data.take 7 = "display".data

/-- The attributes `Field.__repr__` renders: all declared attributes except
those starting with `display`. -/
def reprAttrNames (desc : FieldDesc) : List String :=
  (storedAttrs desc).filter (fun a => ¬ startsWithDisplay a)

/-- `None` values are dropped from the repr. -/
def nonNone (v : PyVal) : Option PyVal := if v = .none then Option.none else some v

/-- The keyword list rendered by `Field.__repr__` (the repr string is the
class name applied to this list; value rendering is injective, so equality
of repr strings for a common variant is equality of these lists).
`Field.__eq__` compares the repr strings. -/
def reprAttrs (desc : FieldDesc) (st : FieldState) : List (String × PyVal) :=
  (reprAttrNames desc).filterMap
    (fun a => (nonNone (fgetattr st a)).map (fun v => (reprName a, v)))

/-- Boolean form of `ValidDate`. -/
def validDateB (d : PyDate) : Bool := decide (ValidDate d)

/-- A well-formed stored `DateRange`, as produced by the library itself:
at least one endpoint, valid dates, normalized order. -/
def rangeWFb (r : DRange) : Bool :=
  (r.start.isSome ∨ r.stop.isSome) &&
  (match r.start with | some d => validDateB d | Option.none => true) &&
  (match r.stop with | some d => validDateB d | Option.none => true) &&
  (match r.start, r.stop with
    | some s, some e => ¬ dateLtB e s
    | _, _ => true)

/-- An ordinary populated-or-absent attribute value: `None`, a non-empty
string, an int, or a bool. -/
def plainWFb : PyVal → Bool
  | .none => true
  | .str s => s ≠ ""
  | .int _ => true
  | .bool _ => true
  | _ => false

/-- Well-formedness of one stored attribute value for a populated, valid
field: datetimes carry no time of day and are calendar-valid; a stored
`date_range` is well formed; a stored `type` is in the variant's set;
`Gender`/`Ethnicity` content is a string the setter accepted. -/
def attrValWFb (desc : FieldDesc) (a : String) (v : PyVal) : Bool :=
  if a = "valid_since" ∨ a = "last_seen" then
    match v with
    | .none => true
    | .pydatetime d s => s = 0 ∧ validDateB d
    | _ => false
  else if a = "date_range" then
    match v with
    | .none => true
    | .drange r => rangeWFb r
    | _ => false
  else if a = "type" then
    match v with
    | .none => true
    | .str s => s ∈ desc.types_set
    | _ => false
  else if a = "content" ∧ desc.contentRule = .genderRule then
    match v with
    | .str s => pyLower s ∈ genders
    | _ => false
  else if a = "content" ∧ desc.contentRule = .ethnicityRule then
    match v with
    | .str s => ¬ s = "" ∧ pyLower s = s
    | _ => false
  else plainWFb v

/-- A populated, valid field state: it stores exactly the declared
attributes, in order, with well-formed values. -/
def StateWF (desc : FieldDesc) (st : FieldState) : Prop :=
  st.map (fun p => p.1) = storedAttrs desc ∧ ∀ p ∈ st, attrValWFb desc p.1 p.2 = true

instance (desc : FieldDesc) (st : FieldState) : Decidable (StateWF desc st) := by
  unfold StateWF
  infer_instance

/-- Is the value a `datetime.datetime` object? -/
def isPydatetime : PyVal → Bool
  | .pydatetime _ _ => true
  | _ => false

/-- No stored attribute holds a datetime value. Only such states round-trip:
a stored datetime is emitted as its `isoformat()` with the `T HH:MM:SS`
tail, which `str_to_datetime` (`strptime` with `%Y-%m-%d`) rejects. -/
def datetimeFree (st : FieldState) : Bool :=
  st.all (fun p => ! isPydatetime p.2)

/-- Structural sanity of a variant descriptor, checked for each of the
sixteen variants: distinct attribute names (also after `@`-prefixing and
after the `type`/`type_` renaming), no attribute name carrying the reserved
prefix, and `display`/`display_international` placement consistent with the
variant's display handling. -/
def DescWF (desc : FieldDesc) : Prop :=
  (storedAttrs desc).Nodup ∧
  ((storedAttrs desc).map paramName).Nodup ∧
  ((prefixedAttrs desc).map (fun pa => pa.1 ++ pa.2)).Nodup ∧
  ((reprAttrNames desc).map reprName).Nodup ∧
  (∀ a ∈ storedAttrs desc, stripAt a = a) ∧
  (∀ a ∈ storedAttrs desc, ¬ a = "type_") ∧
  (desc.displayFn.isSome = true → ¬ "display" ∈ storedAttrs desc ∧
    ¬ "display" ∈ (storedAttrs desc).map paramName) ∧
  (desc.displayFn.isSome = false → "display" ∈ desc.children) ∧
  (desc.phoneExtra = true → "display_international" ∈ desc.children ∧
    desc.displayFn.isSome = false) ∧
  (¬ desc.contentRule = .plain → "content" ∈ desc.children) ∧
  ¬ "" ∈ desc.types_set

instance (desc : FieldDesc) : Decidable (DescWF desc) := by
  unfold DescWF
  infer_instance

/-- The `Address` field's stored scalars that its predicates read. -/
structure Address where
  country : Option String
  state : Option String
  city : Option String
  po_box : Option String
  zip_code : Option String
  street : Option String
  house : Option String
  apartment : Option String
  raw : Option String
deriving DecidableEq, Repr

/-- `Address.is_searchable`: `bool(self.raw or self.country or self.state or
self.city)`. -/
def Address.is_searchable (a : Address) : Bool :=
  truthyS a.raw ∨ truthyS a.country ∨ truthyS a.state ∨ truthyS a.city

/-- `Address.is_sole_searchable`: `bool(self.raw or (self.city and
self.street and self.house))`. -/
def Address.is_sole_searchable (a : Address) : Bool :=
  truthyS a.raw ∨ (truthyS a.city ∧ truthyS a.street ∧ truthyS a.house)

/-- `Address.is_valid_country`: the country code, uppercased, is a key of
`COUNTRIES`. -/
def Address.is_valid_country (a : Address) : Bool :=
  match a.country with
  | some c => (tblGet COUNTRIES (pyUpper c)).isSome
  | Option.none => false

/-- `Address.is_valid_state`: a valid country that has a `STATES` sub-table
containing the uppercased state code. -/
def Address.is_valid_state (a : Address) : Bool :=
  a.is_valid_country &&
    (match a.country with
      | some c =>
        (match tblGet STATES (pyUpper c) with
          | some sub =>
            (match a.state with
              | some s => (tblGet sub (pyUpper s)).isSome
              | Option.none => false)
          | Option.none => false)
      | Option.none => false)

/-- Modelled from the spec's words (section 4.1 searchability table), for
comparison with the code's `Address.is_searchable`: "raw present, OR country
valid AND (zip present OR state valid OR state absent)". -/
def specStrictSearchable (a : Address) : Bool :=
  truthyS a.raw ∨
    (a.is_valid_country ∧ (truthyS a.zip_code ∨ a.is_valid_state ∨ a.state = Option.none))

/-- `UserID.is_searchable`: content is not `None`, contains `"@"`, and the
first two `"@"`-split parts are non-blank after stripping. (The second
indexing is guarded by the `"@" in content` conjunct, which guarantees the
split has at least two parts.) -/
def UserID.is_searchable (content : Option String) : Bool :=
  match content with
  | Option.none => false
  | some s =>
    let parts := splitOnChar '@' s.data
    decide ('@' ∈ s.data) ∧ ¬ pyStrip (parts.getD 0 []) = [] ∧ ¬ pyStrip (parts.getD 1 []) = []

/-- `DOB.age` with the reference date made explicit (`datetime.date.today()`
is a parameter of the embedding): `None` without a date range; uses the
middle of the range as the date of birth; subtracts one year when today's
(month, day) precedes the birth date's. A range with no endpoints would make
`middle` return `None` and the month access raise `AttributeError`. -/
def DOB.age (date_range : Option DRange) (today : PyDate) : Except PyErr (Option Int) :=
  match date_range with
  | Option.none => .ok Option.none
  | some r =>
    match r.middle with
    | Option.none => .error .attributeError
    | some dob =>
      if pairLtB (today.month, today.day) (dob.month, dob.day) then
        .ok (some ((today.year : Int) - (dob.year : Int) - 1))
      else
        .ok (some ((today.year : Int) - (dob.year : Int)))

/-- `DOB.from_birth_year`: reject non-positive years, else the range
Jan 1 .. Dec 31 of that year (the resulting DOB's `date_range`). -/
def DOB.from_birth_year (birth_year : Int) : Except PyErr DRange :=
  if birth_year ≤ 0 then .error (.valueError "birth_year must be positive")
  else .ok (DateRange.from_years_range birth_year.toNat birth_year.toNat)

/-- The concrete field-variant classes, used as the runtime-type keys of the
containers' dispatch tables. -/
inductive FTag where
  | name | address | phone | email | job | education | image | username
  | userid | url | relationship | ethnicity | origincountry | language | tag
  | gender | dob
deriving DecidableEq, Repr

/-- A field instance as a container sees one: its runtime class and an
identity for the particular object. -/
structure FieldV where
  tag : FTag
  payload : Nat
deriving DecidableEq, Repr

/-- The three concrete container kinds. -/
inductive CKind where
  | person | source | relationship
deriving DecidableEq, Repr

/-- The named plural slots of `FieldsContainer.__init__`. -/
inductive PSlot where
  | names | addresses | phones | emails | jobs | educations | images
  | usernames | user_ids | languages | ethnicities | origin_countries
  | urls | relationships | tags
deriving DecidableEq, Repr

/-- The named singular slots. -/
inductive SSlot where
  | gender | dob
deriving DecidableEq, Repr

/-- `class_container` of each container kind: runtime class to plural slot.
`Person` and `Relationship` do not declare `Tag`; `Relationship` also does
not declare `Relationship`. -/
def class_container (k : CKind) (t : FTag) : Option PSlot :=
  match t with
  | .name => some .names
  | .address => some .addresses
  | .phone => some .phones
  | .email => some .emails
  | .job => some .jobs
  | .education => some .educations
  | .image => some .images
  | .username => some .usernames
  | .userid => some .user_ids
  | .url => some .urls
  | .ethnicity => some .ethnicities
  | .origincountry => some .origin_countries
  | .language => some .languages
  | .relationship =>
    match k with
    | .person => some .relationships
    | .source => some .relationships
    | .relationship => Option.none
  | .tag =>
    match k with
    | .source => some .tags
    | _ => Option.none
  | .gender => Option.none
  | .dob => Option.none

/-- `singular_fields` (identical in all three containers). -/
def singular_fields (t : FTag) : Option SSlot :=
  match t with
  | .gender => some .gender
  | .dob => some .dob
  | _ => Option.none

/-- A container's field slots (`FieldsContainer.__init__`). -/
structure CState where
  names : List FieldV
  addresses : List FieldV
  phones : List FieldV
  emails : List FieldV
  jobs : List FieldV
  educations : List FieldV
  images : List FieldV
  usernames : List FieldV
  user_ids : List FieldV
  languages : List FieldV
  ethnicities : List FieldV
  origin_countries : List FieldV
  urls : List FieldV
  relationships : List FieldV
  tags : List FieldV
  gender : Option FieldV
  dob : Option FieldV
deriving DecidableEq, Repr

/-- The empty container. -/
def CState.empty : CState :=
  ⟨[], [], [], [], [], [], [], [], [], [], [], [], [], [], [], Option.none, Option.none⟩

/-- Read a plural slot. -/
def getP (st : CState) : PSlot → List FieldV
  | .names => st.names
  | .addresses => st.addresses
  | .phones => st.phones
  | .emails => st.emails
  | .jobs => st.jobs
  | .educations => st.educations
  | .images => st.images
  | .usernames => st.usernames
  | .user_ids => st.user_ids
  | .languages => st.languages
  | .ethnicities => st.ethnicities
  | .origin_countries => st.origin_countries
  | .urls => st.urls
  | .relationships => st.relationships
  | .tags => st.tags

/-- Write a plural slot. -/
def setP (st : CState) (p : PSlot) (l : List FieldV) : CState :=
  match p with
  | .names => { st with names := l }
  | .addresses => { st with addresses := l }
  | .phones => { st with phones := l }
  | .emails => { st with emails := l }
  | .jobs => { st with jobs := l }
  | .educations => { st with educations := l }
  | .images => { st with images := l }
  | .usernames => { st with usernames := l }
  | .user_ids => { st with user_ids := l }
  | .languages => { st with languages := l }
  | .ethnicities => { st with ethnicities := l }
  | .origin_countries => { st with origin_countries := l }
  | .urls => { st with urls := l }
  | .relationships => { st with relationships := l }
  | .tags => { st with tags := l }

/-- Read a singular slot. -/
def getS (st : CState) : SSlot → Option FieldV
  | .gender => st.gender
  | .dob => st.dob

/-- Write a singular slot. -/
def setS (st : CState) (s : SSlot) (f : FieldV) : CState :=
  match s with
  | .gender => { st with gender := some f }
  | .dob => { st with dob := some f }

/-- `getattr(self, container).append(field)`. -/
def appendP (st : CState) (p : PSlot) (f : FieldV) : CState :=
  setP st p (getP st p ++ [f])

/-- `FieldsContainer.add_fields`: dispatch each field by its runtime class
into its plural slot (append) or singular slot (overwrite); an undeclared
class raises `ValueError` naming the class, leaving the fields added so far
in place (the loop mutates `self` as it goes). The result is the mutated
state plus the offending class, if any. -/
def add_fields (k : CKind) (st : CState) : List FieldV → CState × Option FTag
  | [] => (st, Option.none)
  | f :: rest =>
    match class_container k f.tag with
    | some p => add_fields k (appendP st p f) rest
    | Option.none =>
      match singular_fields f.tag with
      | some s => add_fields k (setS st s f) rest
      | Option.none => (st, some f.tag)

/-- A field class undeclared by container kind `k` (neither plural nor
singular). -/
def undeclared (k : CKind) (t : FTag) : Bool :=
  (class_container k t).isNone && (singular_fields t).isNone

/-- The scalar attributes of a `Source` (`Source.__init__`). -/
structure SourceScalars where
  match_ : Option Rat
  name : Option String
  category : Option String
  origin_url : Option String
  domain : Option String
  sponsored : Option Bool
  source_id : Option String
  person_id : Option String
  premium : Option Bool
  valid_since : Option PyDate
deriving DecidableEq, Repr

/-- A dict entry present exactly when the value is. -/
def optEntry (k : String) (v : Option JVal) : Dict :=
  match v with
  | some j => [(k, j)]
  | Option.none => []

/-- Python `d.update(e)`. -/
def dictUpdate (d e : Dict) : Dict := e.foldl (fun d p => dictSet d p.1 p.2) d

/-- `Source.to_dict`: every scalar except `premium` and `source_id` is
emitted when it `is not None` (so `sponsored=False` is emitted); `premium`
and `source_id` are emitted only when truthy; then the inherited
`fields_to_dict()` output is merged in. The container-field part is
abstracted as the already-serialized dict `fieldsDict`. -/
def Source.to_dict (s : SourceScalars) (fieldsDict : Dict) : Dict :=
  let d : Dict :=
    optEntry "@name" (s.name.map .str) ++
    optEntry "@category" (s.category.map .str) ++
    optEntry "@origin_url" (s.origin_url.map .str) ++
    optEntry "@domain" (s.domain.map .str) ++
    optEntry "@sponsored" (s.sponsored.map .bool) ++
    optEntry "@match" (s.match_.map .num) ++
    optEntry "@person_id" (s.person_id.map .str) ++
    optEntry "@valid_since" (s.valid_since.map (fun d => .str (dateToStr d))) ++
    optEntry "@premium"
      (match s.premium with
        | some true => some (.bool true)
        | _ => Option.none) ++
    optEntry "@id"
      (match s.source_id with
        | some v => if v = "" then Option.none else some (.str v)
        | Option.none => Option.none)
  dictUpdate d fieldsDict

/-- The dict produced by `Field.to_dict`'s main attribute loop (proved below
to coincide with the `dictSet`-built dict). -/
def mainDict (desc : FieldDesc) (st : FieldState) : Dict :=
  (prefixedAttrs desc).filterMap
    (fun pa => (emitVal (fgetattr st pa.2)).map (fun jv => (pa.1 ++ pa.2, jv)))

/-- A `Name` state with the given `first`, `last` and `display` values and
every other attribute `None`. -/
def nState (first last disp : PyVal) : FieldState :=
  [("valid_since", .none), ("inferred", .none), ("last_seen", .none), ("current", .none),
    ("type", .none), ("prefix", .none), ("first", first), ("middle", .none),
    ("last", last), ("suffix", .none), ("raw", .none), ("display", disp)]

/-- An `OriginCountry` state with the given `country` value. -/
def ocState (country : PyVal) : FieldState :=
  [("valid_since", .none), ("inferred", .none), ("last_seen", .none), ("current", .none),
    ("country", country)]

/-- A `Name` state whose `valid_since` holds the datetime 2020-01-01 00:00:00
(and `first` is populated). -/
def nStateVS : FieldState :=
  [("valid_since", .pydatetime ⟨2020, 1, 1⟩ 0), ("inferred", .none), ("last_seen", .none),
    ("current", .none), ("type", .none), ("prefix", .none), ("first", .str "Al"),
    ("middle", .none), ("last", .none), ("suffix", .none), ("raw", .none), ("display", .none)]

/-- The kwargs produced by decoding `mainDict`: each emitted attribute comes
back under its constructor parameter name with its original value. -/
def kwargsMain (desc : FieldDesc) (st : FieldState) : List (String × PyVal) :=
  (prefixedAttrs desc).filterMap
    (fun pa => ((emitVal (fgetattr st pa.2)).map (fun _ => fgetattr st pa.2)).map
      (fun w => (paramName pa.2, w)))

/-- The trailing `display` entry `to_dict` appends for variants with a
computed display property. -/
def displayExtra (desc : FieldDesc) (st : FieldState) : Dict :=
  match desc.displayFn with
  | some f => if (f st).truthy then [("display", encodeDisplay (f st))] else []
  | Option.none => []

/-! ## Library lemmas about the embedding primitives -/

theorem splitOnChar_ne_nil (c : Char) (l : List Char) : splitOnChar c l ≠ [] := by
  cases l with
  | nil => simp [splitOnChar]
  | cons x xs =>
    unfold splitOnChar
    cases h : splitOnChar c xs with
    | nil => simp
    | cons g gs => by_cases hx : x = c <;> simp [hx]

theorem splitOnChar_exists_cons (c : Char) (l : List Char) :
    ∃ g gs, splitOnChar c l = g :: gs := by
  cases hs : splitOnChar c l with
  | nil => exact absurd hs (splitOnChar_ne_nil c l)
  | cons g gs => exact ⟨g, gs, rfl⟩

theorem splitOnChar_cons_eq (c : Char) (xs : List Char) :
    splitOnChar c (c :: xs) = [] :: splitOnChar c xs := by
  obtain ⟨g, gs, hs⟩ := splitOnChar_exists_cons c xs
  show (match splitOnChar c xs with
    | [] => [[]]
    | g :: gs => if c = c then [] :: g :: gs else (c :: g) :: gs) = [] :: splitOnChar c xs
  rw [hs]
  simp

theorem splitOnChar_cons_ne (c x : Char) (xs : List Char) (h : x ≠ c) :
    splitOnChar c (x :: xs) =
      (x :: (splitOnChar c xs).headD []) :: (splitOnChar c xs).tail := by
  obtain ⟨g, gs, hs⟩ := splitOnChar_exists_cons c xs
  show (match splitOnChar c xs with
    | [] => [[]]
    | g :: gs => if x = c then [] :: g :: gs else (x :: g) :: gs) =
      (x :: (splitOnChar c xs).headD []) :: (splitOnChar c xs).tail
  rw [hs]
  simp [h]

theorem splitOnChar_no_sep (c : Char) (l : List Char) (h : ∀ x ∈ l, x ≠ c) :
    splitOnChar c l = [l] := by
  induction l with
  | nil => rfl
  | cons x xs ih =>
    have hx : x ≠ c := h x (by simp)
    have hxs := ih (fun y hy => h y (by simp [hy]))
    rw [splitOnChar_cons_ne c x xs hx, hxs]
    rfl

theorem splitOnChar_append_sep (c : Char) (l1 l2 : List Char) (h : ∀ x ∈ l1, x ≠ c) :
    splitOnChar c (l1 ++ c :: l2) = l1 :: splitOnChar c l2 := by
  induction l1 with
  | nil =>
    simp only [List.nil_append]
    exact splitOnChar_cons_eq c l2
  | cons x xs ih =>
    have hx : x ≠ c := h x (by simp)
    have hxs := ih (fun y hy => h y (by simp [hy]))
    simp only [List.cons_append]
    rw [splitOnChar_cons_ne c x _ hx, hxs]
    rfl

theorem digitChar_ne_dash (n : Nat) : digitChar n ≠ '-' := by
  unfold digitChar
  split <;> decide

theorem isDigitC_digitChar (n : Nat) : isDigitC (digitChar n) = true := by
  unfold digitChar
  split <;> decide

theorem digitChar_toNat (n : Nat) (h : n < 10) : (digitChar n).toNat = 48 + n := by
  interval_cases n <;> rfl

theorem digitsToNat_four (a b c e : Nat) (ha : a < 10) (hb : b < 10) (hc : c < 10)
    (he : e < 10) :
    digitsToNat [digitChar a, digitChar b, digitChar c, digitChar e] =
      ((a * 10 + b) * 10 + c) * 10 + e := by
  simp [digitsToNat, List.foldl, digitChar_toNat _ ha, digitChar_toNat _ hb,
    digitChar_toNat _ hc, digitChar_toNat _ he]
  ring

theorem digitsToNat_two (a b : Nat) (ha : a < 10) (hb : b < 10) :
    digitsToNat [digitChar a, digitChar b] = a * 10 + b := by
  simp [digitsToNat, List.foldl, digitChar_toNat _ ha, digitChar_toNat _ hb]
  ring

/-- `str_to_date` recovers every calendar-valid date from its
`date_to_str` rendering. -/
theorem strToDate_dateToStr (d : PyDate) (h : ValidDate d) :
    strToDate (dateToStr d) = .ok d := by
  obtain ⟨y, m, dd⟩ := d
  obtain ⟨hy1, hy2, hm1, hm2, hd1, hd2⟩ := h
  simp only at hy1 hy2 hm1 hm2 hd1 hd2
  have hsplit : splitOnChar '-' (dateToStr ⟨y, m, dd⟩).data =
      [[digitChar (y / 1000 % 10), digitChar (y / 100 % 10),
        digitChar (y / 10 % 10), digitChar (y % 10)],
        [digitChar (m / 10 % 10), digitChar (m % 10)],
        [digitChar (dd / 10 % 10), digitChar (dd % 10)]] := by
    show splitOnChar '-'
        ([digitChar (y / 1000 % 10), digitChar (y / 100 % 10),
          digitChar (y / 10 % 10), digitChar (y % 10)] ++ '-' ::
          ([digitChar (m / 10 % 10), digitChar (m % 10)] ++ '-' ::
            [digitChar (dd / 10 % 10), digitChar (dd % 10)])) = _
    rw [splitOnChar_append_sep, splitOnChar_append_sep, splitOnChar_no_sep]
    · intro x hx
      fin_cases hx <;> exact digitChar_ne_dash _
    · intro x hx
      fin_cases hx <;> exact digitChar_ne_dash _
    · intro x hx
      fin_cases hx <;> exact digitChar_ne_dash _
  have hyv : digitsToNat [digitChar (y / 1000 % 10), digitChar (y / 100 % 10),
      digitChar (y / 10 % 10), digitChar (y % 10)] = y := by
    rw [digitsToNat_four _ _ _ _ (Nat.mod_lt _ (by norm_num)) (Nat.mod_lt _ (by norm_num))
      (Nat.mod_lt _ (by norm_num)) (Nat.mod_lt _ (by norm_num))]
    omega
  have hmv : digitsToNat [digitChar (m / 10 % 10), digitChar (m % 10)] = m := by
    rw [digitsToNat_two _ _ (Nat.mod_lt _ (by norm_num)) (Nat.mod_lt _ (by norm_num))]
    have hmle : m ≤ 12 := hm2
    omega
  have hdv : digitsToNat [digitChar (dd / 10 % 10), digitChar (dd % 10)] = dd := by
    rw [digitsToNat_two _ _ (Nat.mod_lt _ (by norm_num)) (Nat.mod_lt _ (by norm_num))]
    have hdle : dd ≤ 31 := by
      refine le_trans hd2 ?_
      unfold daysInMonth
      split
      · split <;> norm_num
      · split <;> norm_num
    omega
  unfold strToDate
  rw [hsplit]
  show strToDateGroups _ _ _ = _
  unfold strToDateGroups
  have hcond : ([digitChar (y / 1000 % 10), digitChar (y / 100 % 10),
      digitChar (y / 10 % 10), digitChar (y % 10)].length = 4 ∧
      [digitChar (y / 1000 % 10), digitChar (y / 100 % 10),
        digitChar (y / 10 % 10), digitChar (y % 10)].all isDigitC ∧
      1 ≤ [digitChar (m / 10 % 10), digitChar (m % 10)].length ∧
      [digitChar (m / 10 % 10), digitChar (m % 10)].length ≤ 2 ∧
      [digitChar (m / 10 % 10), digitChar (m % 10)].all isDigitC ∧
      1 ≤ [digitChar (dd / 10 % 10), digitChar (dd % 10)].length ∧
      [digitChar (dd / 10 % 10), digitChar (dd % 10)].length ≤ 2 ∧
      [digitChar (dd / 10 % 10), digitChar (dd % 10)].all isDigitC) := by
    refine ⟨rfl, ?_, by norm_num, by norm_num, ?_, by norm_num, by norm_num, ?_⟩ <;>
      simp [List.all, isDigitC_digitChar]
  rw [if_pos hcond]
  simp only [hyv, hmv, hdv]
  rw [if_pos ⟨hy1, hy2, hm1, hm2, hd1, hd2⟩]

theorem dateToStr_ne_empty (d : PyDate) : dateToStr d ≠ "" := by
  intro h
  have : (dateToStr d).data = [] := by rw [h]
  simp [dateToStr] at this

theorem strToDateGroups_long (ys ms ds : List Char) (h : ¬ ds.length ≤ 2) :
    strToDateGroups ys ms ds = .error (.valueError "time data does not match format") := by
  unfold strToDateGroups
  rw [if_neg (fun hc => h hc.2.2.2.2.2.2.1)]

/-- `str_to_date` (`strptime` with format `%Y-%m-%d`) rejects the
`isoformat()` rendering of a datetime, whatever its date and time of day:
the `T HH:MM:SS` tail is unconverted data. -/
theorem strToDate_datetimeToStr (d : PyDate) (t : Nat) :
    strToDate (datetimeToStr d t) =
      .error (.valueError "time data does not match format") := by
  obtain ⟨y, m, dd⟩ := d
  have hsplit : splitOnChar '-' (datetimeToStr ⟨y, m, dd⟩ t).data =
      [[digitChar (y / 1000 % 10), digitChar (y / 100 % 10),
        digitChar (y / 10 % 10), digitChar (y % 10)],
        [digitChar (m / 10 % 10), digitChar (m % 10)],
        [digitChar (dd / 10 % 10), digitChar (dd % 10), 'T',
          digitChar (t / 36000 % 10), digitChar (t / 3600 % 10), ':',
          digitChar (t % 3600 / 600 % 10), digitChar (t % 3600 / 60 % 10), ':',
          digitChar (t % 60 / 10 % 10), digitChar (t % 60 % 10)]] := by
    show splitOnChar '-'
        ([digitChar (y / 1000 % 10), digitChar (y / 100 % 10),
          digitChar (y / 10 % 10), digitChar (y % 10)] ++ '-' ::
          ([digitChar (m / 10 % 10), digitChar (m % 10)] ++ '-' ::
            [digitChar (dd / 10 % 10), digitChar (dd % 10), 'T',
              digitChar (t / 36000 % 10), digitChar (t / 3600 % 10), ':',
              digitChar (t % 3600 / 600 % 10), digitChar (t % 3600 / 60 % 10), ':',
              digitChar (t % 60 / 10 % 10), digitChar (t % 60 % 10)])) = _
    rw [splitOnChar_append_sep, splitOnChar_append_sep, splitOnChar_no_sep]
    · intro x hx
      fin_cases hx <;> first | exact digitChar_ne_dash _ | decide
    · intro x hx
      fin_cases hx <;> exact digitChar_ne_dash _
    · intro x hx
      fin_cases hx <;> exact digitChar_ne_dash _
  unfold strToDate
  rw [hsplit]
  show strToDateGroups _ _ _ = _
  exact strToDateGroups_long _ _ _ (by simp)

/-- `DateRange.from_dict` recovers every well-formed stored range from its
`to_dict` rendering. -/
theorem drange_from_to (r : DRange) (h : rangeWFb r = true) :
    DateRange.from_dict r.to_dict = .ok r := by
  simp only [rangeWFb, Bool.and_eq_true, decide_eq_true_eq] at h
  obtain ⟨⟨⟨hne, hs⟩, he⟩, hord⟩ := h
  obtain ⟨s1, s2⟩ := r
  cases s1 with
  | none =>
    cases s2 with
    | none => simp at hne
    | some e =>
      have hev : ValidDate e := by
        simpa [validDateB] using he
      simp [DRange.to_dict, DateRange.from_dict, sLookup, List.find?, truthyS,
        dateToStr_ne_empty e, strToDate_dateToStr e hev, DateRange.make,
        bind, Except.bind, pure, Except.pure, parseEndpoint, Except.map]
  | some s =>
    have hsv : ValidDate s := by simpa [validDateB] using hs
    cases s2 with
    | none =>
      simp [DRange.to_dict, DateRange.from_dict, sLookup, List.find?, truthyS,
        dateToStr_ne_empty s, strToDate_dateToStr s hsv, DateRange.make,
        bind, Except.bind, pure, Except.pure, parseEndpoint, Except.map]
    | some e =>
      have hev : ValidDate e := by simpa [validDateB] using he
      have hord2 : dateLtB e s = false := by simpa using hord
      simp [DRange.to_dict, DateRange.from_dict, sLookup, List.find?, truthyS,
        dateToStr_ne_empty s, dateToStr_ne_empty e, strToDate_dateToStr s hsv,
        strToDate_dateToStr e hev, DateRange.make, hord2,
        bind, Except.bind, pure, Except.pure, parseEndpoint, Except.map]

/-! ## C2: DOB age arithmetic -/

/-- C2 (counterexample): for the reference date 2026-03-01,
`DOB.from_birth_year(2000).age` is 25, not `today.year - 2000 = 26`: the
derived date of birth is the middle of the year-2000 range (July 1st), not
January 1st, so today's (month, day) can precede it. -/
theorem C2_counterexample :
    (DOB.from_birth_year 2000).bind (fun r => DOB.age (some r) ⟨2026, 3, 1⟩) =
      .ok (some 25) ∧ ((2026 : Int) - 2000 ≠ 25) := by
  constructor
  · decide
  · decide

theorem DOB_age_of_middle (r : DRange) (today dob : PyDate) (h : r.middle = some dob) :
    DOB.age (some r) today =
      (if pairLtB (today.month, today.day) (dob.month, dob.day) then
        Except.ok (some ((today.year : Int) - (dob.year : Int) - 1))
      else Except.ok (some ((today.year : Int) - (dob.year : Int)))) := by
  simp only [DOB.age]
  rw [h]

/-- C2 (amended): for every reference date `today`,
`DOB.from_birth_year(2000).age` equals `today.year - 2000` when today's
(month, day) is on or after (7, 1) — the midpoint of the year-2000 range —
and `today.year - 2000 - 1` otherwise. -/
theorem C2_age_from_birth_year (today : PyDate) :
    (DOB.from_birth_year 2000).bind (fun r => DOB.age (some r) today) =
      .ok (some (if pairLtB (today.month, today.day) (7, 1) then
        (today.year : Int) - 2001 else (today.year : Int) - 2000)) := by
  have hr : DOB.from_birth_year 2000 = .ok ⟨some ⟨2000, 1, 1⟩, some ⟨2000, 12, 31⟩⟩ := by
    decide
  rw [hr]
  show DOB.age (some ⟨some ⟨2000, 1, 1⟩, some ⟨2000, 12, 31⟩⟩) today = _
  rw [DOB_age_of_middle _ today ⟨2000, 7, 1⟩ (by decide)]
  by_cases hlt : pairLtB (today.month, today.day) (7, 1) = true
  · rw [if_pos hlt, if_pos hlt]
    have h1 : (today.year : Int) - 2000 - 1 = (today.year : Int) - 2001 := by ring
    norm_num [h1]
  · rw [if_neg (by simpa using hlt), if_neg (by simpa using hlt)]
    norm_num

/-! ## C3: Address searchability -/

/-- C3 (counterexample): an address with only a city is searchable under the
code's rule, but not under the spec's strict rule (its country is absent,
hence not a valid country code). -/
theorem C3_counterexample :
    Address.is_searchable
        ⟨Option.none, Option.none, some "Paris", Option.none, Option.none, Option.none,
          Option.none, Option.none, Option.none⟩ = true ∧
      specStrictSearchable
        ⟨Option.none, Option.none, some "Paris", Option.none, Option.none, Option.none,
          Option.none, Option.none, Option.none⟩ = false := by
  constructor
  · decide
  · decide

/-- C3 (amended): `Address.is_searchable` is the lenient legacy rule — true
iff any of `raw`, `country`, `state`, `city` is present (truthy). The spec's
strict rule implies it, but not conversely. -/
theorem C3_address_is_searchable (a : Address) :
    (a.is_searchable = true ↔
      (truthyS a.raw = true ∨ truthyS a.country = true ∨ truthyS a.state = true ∨
        truthyS a.city = true)) ∧
    (specStrictSearchable a = true → a.is_searchable = true) := by
  constructor
  · simp [Address.is_searchable]
  · intro h
    simp only [specStrictSearchable, decide_eq_true_eq] at h
    rcases h with hraw | ⟨hvc, _⟩
    · simp [Address.is_searchable, hraw]
    · cases hco : a.country with
      | none => simp [Address.is_valid_country, hco] at hvc
      | some c =>
        have hcne : ¬ c = "" := by
          intro he
          subst he
          simp only [Address.is_valid_country, hco] at hvc
          revert hvc
          decide
        simp [Address.is_searchable, truthyS, hco, hcne]

/-- C3 (witness): a concrete address satisfying the strict rule is
searchable. -/
theorem C3_witness :
    Address.is_searchable
      ⟨some "US", Option.none, Option.none, Option.none, some "12345", Option.none,
        Option.none, Option.none, Option.none⟩ = true :=
  (C3_address_is_searchable _).2 (by decide)

/-! ## C9: UserID searchability -/

theorem splitOnChar_getD_zero (c : Char) (l : List Char) :
    (splitOnChar c l).getD 0 [] = l.takeWhile (fun x => x ≠ c) := by
  induction l with
  | nil => rfl
  | cons x xs ih =>
    by_cases hx : x = c
    · subst hx
      rw [splitOnChar_cons_eq]
      simp [List.takeWhile_cons]
    · obtain ⟨g, gs, hs⟩ := splitOnChar_exists_cons c xs
      rw [splitOnChar_cons_ne c x xs hx]
      rw [hs] at ih ⊢
      simp only [List.getD_cons_zero, List.headD_cons] at ih ⊢
      simp [List.takeWhile_cons, hx, ih]

theorem dropWhile_mem_head (c : Char) (l : List Char) (h : c ∈ l) :
    ∃ t, l.dropWhile (fun x => x ≠ c) = c :: t := by
  induction l with
  | nil => simp at h
  | cons x xs ih =>
    by_cases hx : x = c
    · subst hx
      exact ⟨xs, by simp [List.dropWhile_cons]⟩
    · have hmem : c ∈ xs := by
        rcases List.mem_cons.mp h with h1 | h1
        · exact absurd h1.symm hx
        · exact h1
      obtain ⟨t, ht⟩ := ih hmem
      exact ⟨t, by simpa [List.dropWhile_cons, hx] using ht⟩

/-- C9 (counterexample): `UserID(content="a@b@c")` is searchable even though
its content does not consist of exactly one `@`-delimited prefix and
suffix (it contains two `@`s). -/
theorem C9_counterexample :
    UserID.is_searchable (some "a@b@c") = true ∧ ("a@b@c".data.count '@' ≠ 1) := by
  constructor
  · decide
  · decide

/-- C9 (amended): a `UserID` is searchable iff its content contains at least
one `@` and both the segment before the first `@` and the segment between
the first and second `@` (or the end) are non-blank after stripping;
content with further `@`s can still be searchable. -/
theorem C9_userid_is_searchable (s : String) :
    UserID.is_searchable (some s) = true ↔
      ∃ pre suf : List Char, s.data = pre ++ '@' :: suf ∧ '@' ∉ pre ∧
        pyStrip pre ≠ [] ∧ pyStrip (suf.takeWhile (fun x => x ≠ '@')) ≠ [] := by
  simp only [UserID.is_searchable, Bool.and_eq_true, decide_eq_true_eq,
    Bool.not_eq_true', decide_eq_true_iff, ne_eq]
  constructor
  · rintro h
    have hmem : '@' ∈ s.data := by
      revert h
      by_cases hm : '@' ∈ s.data
      · intro _; exact hm
      · intro h
        exact absurd h (by simp [hm])
    obtain ⟨t, ht⟩ := dropWhile_mem_head '@' s.data hmem
    have hdec : s.data = s.data.takeWhile (fun x => x ≠ '@') ++ '@' :: t := by
      conv_lhs => rw [← List.takeWhile_append_dropWhile (p := fun x => x ≠ '@') (l := s.data)]
      rw [ht]
    have hpre : ∀ x ∈ s.data.takeWhile (fun x => x ≠ '@'), x ≠ '@' := by
      intro x hx
      have := List.mem_takeWhile_imp hx
      simpa using this
    have hsplit : splitOnChar '@' s.data =
        s.data.takeWhile (fun x => x ≠ '@') :: splitOnChar '@' t := by
      conv_lhs => rw [hdec]
      exact splitOnChar_append_sep '@' _ t hpre
    refine ⟨s.data.takeWhile (fun x => x ≠ '@'), t, hdec, ?_, ?_, ?_⟩
    · intro hx
      exact hpre '@' hx rfl
    · have h0 : (splitOnChar '@' s.data).getD 0 [] = s.data.takeWhile (fun x => x ≠ '@') := by
        rw [hsplit]; rfl
      have := h.2.1
      rw [h0] at this
      exact this
    · have h1 : (splitOnChar '@' s.data).getD 1 [] = t.takeWhile (fun x => x ≠ '@') := by
        rw [hsplit]
        show (splitOnChar '@' t).getD 0 [] = _
        exact splitOnChar_getD_zero '@' t
      have := h.2.2
      rw [h1] at this
      exact this
  · rintro ⟨pre, suf, hdec, hnot, hp, hs⟩
    have hpre : ∀ x ∈ pre, x ≠ '@' := fun x hx he => hnot (he ▸ hx)
    have hsplit : splitOnChar '@' s.data = pre :: splitOnChar '@' suf := by
      rw [hdec]
      exact splitOnChar_append_sep '@' pre suf hpre
    refine ⟨?_, ?_, ?_⟩
    · rw [hdec]
      simp
    · have h0 : (splitOnChar '@' s.data).getD 0 [] = pre := by rw [hsplit]; rfl
      rw [h0]
      exact hp
    · have h1 : (splitOnChar '@' s.data).getD 1 [] = suf.takeWhile (fun x => x ≠ '@') := by
        rw [hsplit]
        show (splitOnChar '@' suf).getD 0 [] = _
        exact splitOnChar_getD_zero '@' suf
      rw [h1]
      exact hs

/-! ## C10: DateRange.from_dict endpoint requirement -/

theorem strToDate_error_msg (v : String) (e : PyErr) (h : strToDate v = .error e) :
    e = .valueError "time data does not match format" := by
  unfold strToDate at h
  split at h
  · unfold strToDateGroups at h
    split at h
    · split at h
      · exact absurd h (by simp)
      · injection h with h1
        exact h1.symm
    · injection h with h1
      exact h1.symm
  · injection h with h1
    exact h1.symm

theorem parseEndpoint_ok_or_msg (o : Option String) :
    (∃ x, parseEndpoint o = .ok x) ∨
      parseEndpoint o = .error (.valueError "time data does not match format") := by
  cases o with
  | none => exact .inl ⟨_, rfl⟩
  | some v =>
    by_cases hv : v = ""
    · exact .inl ⟨Option.none, by simp [parseEndpoint, hv]⟩
    · cases hp : strToDate v with
      | ok dt => exact .inl ⟨some dt, by simp [parseEndpoint, hv, hp, Except.map]⟩
      | error e =>
        right
        have he := strToDate_error_msg v e hp
        subst he
        simp [parseEndpoint, hv, hp, Except.map]

theorem parseEndpoint_truthy_isSome (o : Option String) (h : truthyS o = true)
    (x : Option PyDate) (hx : parseEndpoint o = .ok x) : x.isSome = true := by
  cases o with
  | none => simp [truthyS] at h
  | some v =>
    have hv : ¬ v = "" := by simpa [truthyS] using h
    cases hp : strToDate v with
    | ok dt =>
      simp only [parseEndpoint, hv, hp, Except.map, if_neg] at hx
      injection hx with h1
      rw [← h1]
      rfl
    | error e => simp [parseEndpoint, hv, hp, Except.map] at hx

theorem DateRange.make_isSome (s e : Option PyDate) (h : s.isSome = true ∨ e.isSome = true) :
    (DateRange.make s e).start.isSome = true ∨ (DateRange.make s e).stop.isSome = true := by
  cases s <;> cases e <;> simp_all [DateRange.make] <;> split <;> simp

/-- C10 (counterexample): a dict that does contain a `start` key — with an
empty-string value — still raises the no-endpoint `ValueError`: the check is
truthiness of the values, not presence of the keys. -/
theorem C10_counterexample :
    DateRange.from_dict [("start", "")] =
      .error (.valueError "DateRange must have at least a start or an end date") := by
  decide

/-- C10 (amended): `DateRange.from_dict` raises the no-endpoint `ValueError`
iff neither the `start` nor the `end` value is truthy (present with a
non-empty value); truthy values are parsed (a malformed one raises a parse
`ValueError` instead); on success the returned `DateRange` has at least one
populated endpoint. -/
theorem C10_daterange_from_dict (d : List (String × String)) :
    (DateRange.from_dict d =
        .error (.valueError "DateRange must have at least a start or an end date") ↔
      ¬ (truthyS (sLookup d "start") = true ∨ truthyS (sLookup d "end") = true)) ∧
    (∀ r, DateRange.from_dict d = .ok r → r.start.isSome = true ∨ r.stop.isSome = true) := by
  unfold DateRange.from_dict
  by_cases h : truthyS (sLookup d "start") = true ∨ truthyS (sLookup d "end") = true
  · rw [if_neg (not_not_intro h)]
    rcases parseEndpoint_ok_or_msg (sLookup d "start") with ⟨xs, hxs⟩ | hxs
    · rcases parseEndpoint_ok_or_msg (sLookup d "end") with ⟨xe, hxe⟩ | hxe
      · constructor
        · constructor
          · intro herr
            rw [hxs, hxe] at herr
            simp [bind, Except.bind, pure, Except.pure] at herr
          · intro hcon
            exact absurd h hcon
        · intro r hr
          rw [hxs, hxe] at hr
          simp only [bind, Except.bind, pure, Except.pure] at hr
          injection hr with h1
          rw [← h1]
          rcases h with hts | hte
          · exact DateRange.make_isSome _ _ (.inl (parseEndpoint_truthy_isSome _ hts xs hxs))
          · exact DateRange.make_isSome _ _ (.inr (parseEndpoint_truthy_isSome _ hte xe hxe))
      · constructor
        · constructor
          · intro herr
            rw [hxs, hxe] at herr
            simp [bind, Except.bind, pure, Except.pure] at herr
          · intro hcon
            exact absurd h hcon
        · intro r hr
          rw [hxs, hxe] at hr
          simp [bind, Except.bind, pure, Except.pure] at hr
    · constructor
      · constructor
        · intro herr
          rw [hxs] at herr
          simp [bind, Except.bind, pure, Except.pure] at herr
        · intro hcon
          exact absurd h hcon
      · intro r hr
        rw [hxs] at hr
        simp [bind, Except.bind, pure, Except.pure] at hr
  · rw [if_pos h]
    constructor
    · exact ⟨fun _ => h, fun _ => rfl⟩
    · intro r hr
      exact absurd hr (by simp)

/-- C10 (witness): decoding a dict with only a valid `start` yields a range
with a populated endpoint. -/
theorem C10_witness :
    DateRange.from_dict [("start", "2000-01-01")] = .ok ⟨some ⟨2000, 1, 1⟩, Option.none⟩ ∧
      ((⟨some ⟨2000, 1, 1⟩, Option.none⟩ : DRange).start.isSome = true ∨
        (⟨some ⟨2000, 1, 1⟩, Option.none⟩ : DRange).stop.isSome = true) :=
  ⟨by decide, (C10_daterange_from_dict [("start", "2000-01-01")]).2 _ (by decide)⟩

/-! ## C5: validated assignment to the `type` attribute -/

theorem fgetattr_fsetRaw_self (st : FieldState) (a : String) (v : PyVal) :
    fgetattr (fsetRaw st a v) a = v := by
  induction st with
  | nil => simp [fsetRaw, fgetattr, List.find?]
  | cons p st ih =>
    by_cases hp : p.1 = a
    · have hany : (p :: st).any (fun q => q.1 = a) = true := by simp [hp]
      simp [fsetRaw, hany, hp, fgetattr, List.find?]
    · cases hany : st.any (fun q => q.1 = a) with
      | true =>
        have hany2 : (p :: st).any (fun q => q.1 = a) = true := by simp [hany]
        have htail : fsetRaw st a v = st.map (fun q => if q.1 = a then (a, v) else q) := by
          simp [fsetRaw, hany]
        rw [htail] at ih
        simp only [fsetRaw, hany2, if_true, List.map_cons, if_neg hp]
        simp only [fgetattr, List.find?, hp] at ih ⊢
        exact ih
      | false =>
        have hany2 : (p :: st).any (fun q => q.1 = a) = false := by simp [hany, hp]
        have htail : fsetRaw st a v = st ++ [(a, v)] := by simp [fsetRaw, hany]
        rw [htail] at ih
        simp only [fsetRaw, hany2, Bool.false_eq_true, if_false, List.cons_append]
        simp only [fgetattr, List.find?, hp] at ih ⊢
        exact ih

/-- C5: assigning to the `type` attribute never stores a value outside the
variant's `types_set`: `None` and members are stored unchanged, anything
else is coerced to `None` (the `ValueError` from `validate_type` is caught
and logged). -/
theorem C5_type_assignment (types_set : List String) (st : FieldState) (v : PyVal) :
    (fgetattr (fieldSetattr types_set st "type" v) "type" = v ∧
      (v = .none ∨ ∃ s, v = .str s ∧ s ∈ types_set)) ∨
    (fgetattr (fieldSetattr types_set st "type" v) "type" = .none ∧
      ¬ (v = .none ∨ ∃ s, v = .str s ∧ s ∈ types_set)) := by
  unfold fieldSetattr
  rw [if_pos rfl]
  match v with
  | .none =>
    left
    exact ⟨by simpa [validateTypeCoerce] using fgetattr_fsetRaw_self st "type" .none, .inl rfl⟩
  | .str s =>
    by_cases hs : s ∈ types_set
    · left
      refine ⟨?_, .inr ⟨s, rfl, hs⟩⟩
      simpa [validateTypeCoerce, hs] using fgetattr_fsetRaw_self st "type" (.str s)
    · right
      refine ⟨?_, ?_⟩
      · simpa [validateTypeCoerce, hs] using fgetattr_fsetRaw_self st "type" PyVal.none
      · rintro (h | ⟨t, ht, hmem⟩)
        · exact PyVal.noConfusion h
        · injection ht with h1
          exact hs (h1 ▸ hmem)
  | .int n =>
    right
    refine ⟨by simpa [validateTypeCoerce] using fgetattr_fsetRaw_self st "type" PyVal.none, ?_⟩
    rintro (h | ⟨t, ht, hmem⟩)
    · exact PyVal.noConfusion h
    · exact PyVal.noConfusion ht
  | .bool b =>
    right
    refine ⟨by simpa [validateTypeCoerce] using fgetattr_fsetRaw_self st "type" PyVal.none, ?_⟩
    rintro (h | ⟨t, ht, hmem⟩)
    · exact PyVal.noConfusion h
    · exact PyVal.noConfusion ht
  | .floatv q =>
    right
    refine ⟨by simpa [validateTypeCoerce] using fgetattr_fsetRaw_self st "type" PyVal.none, ?_⟩
    rintro (h | ⟨t, ht, hmem⟩)
    · exact PyVal.noConfusion h
    · exact PyVal.noConfusion ht
  | .pydate dd =>
    right
    refine ⟨by simpa [validateTypeCoerce] using fgetattr_fsetRaw_self st "type" PyVal.none, ?_⟩
    rintro (h | ⟨t, ht, hmem⟩)
    · exact PyVal.noConfusion h
    · exact PyVal.noConfusion ht
  | .pydatetime dd sec =>
    right
    refine ⟨by simpa [validateTypeCoerce] using fgetattr_fsetRaw_self st "type" PyVal.none, ?_⟩
    rintro (h | ⟨t, ht, hmem⟩)
    · exact PyVal.noConfusion h
    · exact PyVal.noConfusion ht
  | .drange r =>
    right
    refine ⟨by simpa [validateTypeCoerce] using fgetattr_fsetRaw_self st "type" PyVal.none, ?_⟩
    rintro (h | ⟨t, ht, hmem⟩)
    · exact PyVal.noConfusion h
    · exact PyVal.noConfusion ht
  | .pdict kv =>
    right
    refine ⟨by simpa [validateTypeCoerce] using fgetattr_fsetRaw_self st "type" PyVal.none, ?_⟩
    rintro (h | ⟨t, ht, hmem⟩)
    · exact PyVal.noConfusion h
    · exact PyVal.noConfusion ht

/-- C5 (witness): concretely, assigning the invalid value "nope" to a
`Name`'s `type` stores `None`. -/
theorem C5_witness :
    fgetattr (fieldSetattr nameDesc.types_set (nState .none .none .none) "type"
      (.str "nope")) "type" = .none := by
  rcases C5_type_assignment nameDesc.types_set (nState .none .none .none) (.str "nope")
    with h | h
  · rcases h.2 with hc | ⟨s, hs, hmem⟩
    · exact PyVal.noConfusion hc
    · injection hs with h1
      subst h1
      revert hmem
      decide
  · exact h.1

/-! ## C6: FieldsContainer.add_fields dispatch -/

theorem getP_setP (st : CState) (p : PSlot) (l : List FieldV) (p' : PSlot) :
    getP (setP st p l) p' = if p' = p then l else getP st p' := by
  cases p <;> cases p' <;> simp [getP, setP]

theorem getS_setS (st : CState) (s : SSlot) (f : FieldV) (s' : SSlot) :
    getS (setS st s f) s' = if s' = s then some f else getS st s' := by
  cases s <;> cases s' <;> simp [getS, setS]

theorem getP_setS (st : CState) (s : SSlot) (f : FieldV) (p : PSlot) :
    getP (setS st s f) p = getP st p := by
  cases s <;> cases p <;> rfl

theorem getS_setP (st : CState) (p : PSlot) (l : List FieldV) (s : SSlot) :
    getS (setP st p l) s = getS st s := by
  cases p <;> cases s <;> rfl

theorem getP_appendP (st : CState) (p : PSlot) (f : FieldV) (p' : PSlot) :
    getP (appendP st p f) p' = if p' = p then getP st p ++ [f] else getP st p' := by
  unfold appendP
  rw [getP_setP]

theorem getS_appendP (st : CState) (p : PSlot) (f : FieldV) (s : SSlot) :
    getS (appendP st p f) s = getS st s := by
  unfold appendP
  rw [getS_setP]

theorem singular_of_class (k : CKind) (t : FTag) (p : PSlot)
    (h : class_container k t = some p) : singular_fields t = Option.none := by
  cases t <;> first
    | rfl
    | (exfalso; cases k <;> simp [class_container] at h)

theorem add_fields_cons_plural (k : CKind) (st : CState) (f : FieldV) (rest : List FieldV)
    (p : PSlot) (h : class_container k f.tag = some p) :
    add_fields k st (f :: rest) = add_fields k (appendP st p f) rest := by
  simp only [add_fields]
  rw [h]

theorem add_fields_cons_singular (k : CKind) (st : CState) (f : FieldV) (rest : List FieldV)
    (s : SSlot) (hc : class_container k f.tag = Option.none)
    (hs : singular_fields f.tag = some s) :
    add_fields k st (f :: rest) = add_fields k (setS st s f) rest := by
  simp only [add_fields]
  rw [hc, hs]

theorem add_fields_cons_error (k : CKind) (st : CState) (f : FieldV) (rest : List FieldV)
    (hc : class_container k f.tag = Option.none)
    (hs : singular_fields f.tag = Option.none) :
    add_fields k st (f :: rest) = (st, some f.tag) := by
  simp only [add_fields]
  rw [hc, hs]

/-- C6: `add_fields` raises (its error component is set) iff some field's
runtime class is declared in neither the plural nor the singular table, and
then the error names an offending class; on a successful run every plural
slot receives exactly its declared fields appended in order and every
singular slot holds the last field dispatched to it (earlier ones are
overwritten). -/
theorem C6_add_fields (k : CKind) (st : CState) (fields : List FieldV) :
    ((add_fields k st fields).2 ≠ Option.none ↔ ∃ f ∈ fields, undeclared k f.tag = true) ∧
    (∀ t, (add_fields k st fields).2 = some t →
      ∃ f ∈ fields, f.tag = t ∧ undeclared k t = true) ∧
    ((add_fields k st fields).2 = Option.none →
      (∀ p, getP (add_fields k st fields).1 p =
        getP st p ++ fields.filter (fun f => class_container k f.tag = some p)) ∧
      (∀ s, getS (add_fields k st fields).1 s =
        fields.foldl (fun acc f => if singular_fields f.tag = some s then some f else acc)
          (getS st s))) := by
  induction fields generalizing st with
  | nil =>
    refine ⟨by simp [add_fields], by simp [add_fields], fun _ => ⟨fun p => by simp [add_fields],
      fun s => by simp [add_fields]⟩⟩
  | cons f rest ih =>
    cases hc : class_container k f.tag with
    | some p =>
      have hsg := singular_of_class k f.tag p hc
      have hu : undeclared k f.tag = false := by
        simp [undeclared, hc]
      rw [add_fields_cons_plural k st f rest p hc]
      obtain ⟨ih1, ih2, ih3⟩ := ih (appendP st p f)
      refine ⟨?_, ?_, ?_⟩
      · rw [ih1]
        constructor
        · rintro ⟨g, hg, hgu⟩
          exact ⟨g, List.mem_cons_of_mem f hg, hgu⟩
        · rintro ⟨g, hg, hgu⟩
          rcases List.mem_cons.mp hg with h1 | h1
          · subst h1
            rw [hu] at hgu
            exact absurd hgu (by simp)
          · exact ⟨g, h1, hgu⟩
      · intro t ht
        obtain ⟨g, hg, hgt, hgu⟩ := ih2 t ht
        exact ⟨g, List.mem_cons_of_mem f hg, hgt, hgu⟩
      · intro hnone
        obtain ⟨ihp, ihs⟩ := ih3 hnone
        constructor
        · intro p'
          rw [ihp p', getP_appendP]
          by_cases hpp : p' = p
          · subst hpp
            rw [if_pos rfl]
            simp [List.filter_cons, hc, List.append_assoc]
          · rw [if_neg hpp]
            have : ¬ (class_container k f.tag = some p') := by
              rw [hc]
              intro hcon
              injection hcon with h1
              exact hpp h1.symm
            simp [List.filter_cons, this]
        · intro s
          rw [ihs s, getS_appendP]
          simp [List.foldl_cons, hsg]
    | none =>
      cases hsg : singular_fields f.tag with
      | some s0 =>
        have hu : undeclared k f.tag = false := by
          simp [undeclared, hc, hsg]
        rw [add_fields_cons_singular k st f rest s0 hc hsg]
        obtain ⟨ih1, ih2, ih3⟩ := ih (setS st s0 f)
        refine ⟨?_, ?_, ?_⟩
        · rw [ih1]
          constructor
          · rintro ⟨g, hg, hgu⟩
            exact ⟨g, List.mem_cons_of_mem f hg, hgu⟩
          · rintro ⟨g, hg, hgu⟩
            rcases List.mem_cons.mp hg with h1 | h1
            · subst h1
              rw [hu] at hgu
              exact absurd hgu (by simp)
            · exact ⟨g, h1, hgu⟩
        · intro t ht
          obtain ⟨g, hg, hgt, hgu⟩ := ih2 t ht
          exact ⟨g, List.mem_cons_of_mem f hg, hgt, hgu⟩
        · intro hnone
          obtain ⟨ihp, ihs⟩ := ih3 hnone
          constructor
          · intro p'
            rw [ihp p', getP_setS]
            have : ¬ (class_container k f.tag = some p') := by
              rw [hc]
              simp
            simp [List.filter_cons, this]
          · intro s
            rw [ihs s, getS_setS]
            by_cases hss : s = s0
            · subst hss
              simp [List.foldl_cons, hsg]
            · rw [if_neg hss]
              have : ¬ (singular_fields f.tag = some s) := by
                rw [hsg]
                intro hcon
                injection hcon with h1
                exact hss h1.symm
              simp [List.foldl_cons, this]
      | none =>
        have hu : undeclared k f.tag = true := by
          simp [undeclared, hc, hsg]
        rw [add_fields_cons_error k st f rest hc hsg]
        refine ⟨?_, ?_, ?_⟩
        · simp only [ne_eq, Option.some_ne_none, not_false_iff, true_iff]
          exact ⟨f, List.mem_cons_self f rest, hu⟩
        · intro t ht
          injection ht with h1
          exact ⟨f, List.mem_cons_self f rest, h1, h1 ▸ hu⟩
        · intro hnone
          exact absurd hnone (by simp)

/-- C6 (witness): adding a name and two genders to an empty person appends
the name and keeps only the second gender; adding a `Tag` to a person
errors naming `Tag`. -/
theorem C6_witness :
    getP (add_fields .person CState.empty
        [⟨.name, 0⟩, ⟨.gender, 1⟩, ⟨.gender, 2⟩]).1 .names = [⟨.name, 0⟩] ∧
    getS (add_fields .person CState.empty
        [⟨.name, 0⟩, ⟨.gender, 1⟩, ⟨.gender, 2⟩]).1 .gender = some ⟨.gender, 2⟩ ∧
    (add_fields .person CState.empty [⟨.tag, 3⟩]).2 = some .tag := by
  refine ⟨?_, ?_, by decide⟩
  · have h := ((C6_add_fields .person CState.empty
      [⟨.name, 0⟩, ⟨.gender, 1⟩, ⟨.gender, 2⟩]).2.2 (by decide)).1 .names
    rw [h]
    decide
  · have h := ((C6_add_fields .person CState.empty
      [⟨.name, 0⟩, ⟨.gender, 1⟩, ⟨.gender, 2⟩]).2.2 (by decide)).2 .gender
    rw [h]
    decide

/-! ## C7: Source.to_dict scalar emission -/

theorem mem_keys_optEntry (k k' : String) (v : Option JVal) :
    (k ∈ (optEntry k' v).map (fun p => p.1)) ↔ (k = k' ∧ v ≠ Option.none) := by
  cases v <;> simp [optEntry]

theorem keys_dictSet_replace (d : Dict) (k0 : String) (v : JVal)
    (h : d.any (fun p => p.1 = k0) = true) :
    (dictSet d k0 v).map (fun p => p.1) = d.map (fun p => p.1) := by
  unfold dictSet
  rw [if_pos h, List.map_map]
  apply List.map_congr_left
  intro p hp
  by_cases hc : p.1 = k0 <;> simp [hc]

theorem mem_keys_dictSet (d : Dict) (k0 : String) (v : JVal) (k : String) :
    (k ∈ (dictSet d k0 v).map (fun p => p.1)) ↔
      (k ∈ d.map (fun p => p.1) ∨ k = k0) := by
  by_cases h : d.any (fun p => p.1 = k0) = true
  · rw [keys_dictSet_replace d k0 v h]
    constructor
    · exact fun hk => .inl hk
    · rintro (hk | hk)
      · exact hk
      · subst hk
        obtain ⟨p, hp, hpk⟩ := List.any_eq_true.mp h
        have : p.1 = k := by simpa using hpk
        exact this ▸ List.mem_map_of_mem (fun q => q.1) hp
  · unfold dictSet
    rw [if_neg h]
    simp

theorem mem_keys_dictUpdate (d e : Dict) (k : String) :
    (k ∈ (dictUpdate d e).map (fun p => p.1)) ↔
      (k ∈ d.map (fun p => p.1) ∨ k ∈ e.map (fun p => p.1)) := by
  induction e generalizing d with
  | nil => simp [dictUpdate]
  | cons p e ih =>
    show (k ∈ (dictUpdate (dictSet d p.1 p.2) e).map (fun p => p.1)) ↔ _
    rw [ih, mem_keys_dictSet]
    simp only [List.map_cons, List.mem_cons]
    tauto

/-- C7: `Source.to_dict` emits `@name`, `@category`, `@origin_url`,
`@domain`, `@sponsored`, `@match`, `@person_id` and `@valid_since` exactly
when the scalar is not `None` (in particular `@sponsored` is present for
`sponsored=False`), while `@premium` is emitted only when `premium` is
truthy and `@id` only when `source_id` is truthy (non-empty). -/
theorem C7_source_to_dict (s : SourceScalars) (fieldsDict : Dict)
    (h : ∀ k ∈ fieldsDict.map (fun p => p.1), k.data.head? ≠ some '@') :
    ("@name" ∈ (Source.to_dict s fieldsDict).map (fun p => p.1) ↔ s.name ≠ Option.none) ∧
    ("@category" ∈ (Source.to_dict s fieldsDict).map (fun p => p.1) ↔
      s.category ≠ Option.none) ∧
    ("@origin_url" ∈ (Source.to_dict s fieldsDict).map (fun p => p.1) ↔
      s.origin_url ≠ Option.none) ∧
    ("@domain" ∈ (Source.to_dict s fieldsDict).map (fun p => p.1) ↔
      s.domain ≠ Option.none) ∧
    ("@sponsored" ∈ (Source.to_dict s fieldsDict).map (fun p => p.1) ↔
      s.sponsored ≠ Option.none) ∧
    ("@match" ∈ (Source.to_dict s fieldsDict).map (fun p => p.1) ↔
      s.match_ ≠ Option.none) ∧
    ("@person_id" ∈ (Source.to_dict s fieldsDict).map (fun p => p.1) ↔
      s.person_id ≠ Option.none) ∧
    ("@valid_since" ∈ (Source.to_dict s fieldsDict).map (fun p => p.1) ↔
      s.valid_since ≠ Option.none) ∧
    ("@premium" ∈ (Source.to_dict s fieldsDict).map (fun p => p.1) ↔
      s.premium = some true) ∧
    ("@id" ∈ (Source.to_dict s fieldsDict).map (fun p => p.1) ↔
      ∃ v, s.source_id = some v ∧ v ≠ "") := by
  have hf : ∀ k : String, k.data.head? = some '@' →
      ¬ (k ∈ fieldsDict.map (fun p => p.1)) := fun k hk hmem => h k hmem hk
  unfold Source.to_dict
  refine ⟨?_, ?_, ?_, ?_, ?_, ?_, ?_, ?_, ?_, ?_⟩ <;>
    rw [mem_keys_dictUpdate] <;>
    simp only [List.map_append, List.mem_append, mem_keys_optEntry]
  · simp [hf "@name" rfl]
  · simp [hf "@category" rfl]
  · simp [hf "@origin_url" rfl]
  · simp [hf "@domain" rfl]
  · simp [hf "@sponsored" rfl]
  · simp [hf "@match" rfl]
  · simp [hf "@person_id" rfl]
  · simp [hf "@valid_since" rfl]
  · cases hp : s.premium with
    | none => simp [hp, hf "@premium" rfl]
    | some b => cases b <;> simp [hp, hf "@premium" rfl]
  · cases hid : s.source_id with
    | none => simp [hid, hf "@id" rfl]
    | some v => by_cases hv : v = "" <;> simp [hid, hv, hf "@id" rfl]

/-- C7 (witness): with `sponsored=False` and `premium=False`, the dict keeps
`@sponsored` and omits `@premium`. -/
theorem C7_witness :
    ("@sponsored" ∈ (Source.to_dict
      ⟨Option.none, Option.none, Option.none, Option.none, Option.none, some false,
        Option.none, Option.none, some false, Option.none⟩ []).map (fun p => p.1)) ∧
    ¬ ("@premium" ∈ (Source.to_dict
      ⟨Option.none, Option.none, Option.none, Option.none, Option.none, some false,
        Option.none, Option.none, some false, Option.none⟩ []).map (fun p => p.1)) := by
  have h := C7_source_to_dict
    ⟨Option.none, Option.none, Option.none, Option.none, Option.none, some false,
      Option.none, Option.none, some false, Option.none⟩ [] (by simp)
  refine ⟨h.2.2.2.2.1.mpr (by simp), fun hmem => ?_⟩
  have := h.2.2.2.2.2.2.2.2.1.mp hmem
  simp at this

/-! ## C8: Field equality is repr equality -/

theorem find_filterMap_keyed_none {α β : Type} (l : List α) (key : α → String)
    (F : α → Option β) (k : String) (hk : ∀ a ∈ l, ¬ key a = k) :
    (l.filterMap (fun x => (F x).map (fun v => (key x, v)))).find?
      (fun p => p.1 = k) = Option.none := by
  induction l with
  | nil => rfl
  | cons x xs ih =>
    have hx := hk x (by simp)
    have htail := ih (fun a ha => hk a (List.mem_cons_of_mem x ha))
    cases hF : F x with
    | none => simpa [List.filterMap_cons, hF] using htail
    | some v => simpa [List.filterMap_cons, hF, List.find?, hx] using htail

theorem find_filterMap_keyed {α β : Type} (l : List α) (key : α → String)
    (F : α → Option β) (hn : (l.map key).Nodup) (a : α) (ha : a ∈ l) :
    ((l.filterMap (fun x => (F x).map (fun v => (key x, v)))).find?
      (fun p => p.1 = key a)).map (fun p => p.2) = F a := by
  induction l with
  | nil => simp at ha
  | cons x xs ih =>
    have hn2 : (xs.map key).Nodup := (List.nodup_cons.mp hn).2
    have hnx : ¬ key x ∈ xs.map key := (List.nodup_cons.mp hn).1
    rcases List.mem_cons.mp ha with hax | hax
    · subst hax
      cases hF : F a with
      | none =>
        have hnone := find_filterMap_keyed_none xs key F (key a)
          (fun b hb hkb => hnx (hkb ▸ List.mem_map_of_mem key hb))
        simp [List.filterMap_cons, hF, hnone]
      | some v => simp [List.filterMap_cons, hF, List.find?]
    · have hka : ¬ key x = key a := by
        intro hkx
        exact hnx (hkx ▸ List.mem_map_of_mem key hax)
      cases hF : F x with
      | none => simpa [List.filterMap_cons, hF] using ih hn2 hax
      | some v => simpa [List.filterMap_cons, hF, List.find?, hka] using ih hn2 hax

theorem nonNone_inj (v1 v2 : PyVal) (h : nonNone v1 = nonNone v2) : v1 = v2 := by
  unfold nonNone at h
  by_cases h1 : v1 = PyVal.none <;> by_cases h2 : v2 = PyVal.none <;>
    simp [h1, h2] at h <;> simp_all

/-- Repr-keyword-list equality coincides with pointwise equality of the
non-`display` attributes. -/
theorem reprAttrs_eq_iff (desc : FieldDesc)
    (hn : ((reprAttrNames desc).map reprName).Nodup) (st1 st2 : FieldState) :
    reprAttrs desc st1 = reprAttrs desc st2 ↔
      ∀ a ∈ reprAttrNames desc, fgetattr st1 a = fgetattr st2 a := by
  constructor
  · intro heq a ha
    have h1 : ((reprAttrs desc st1).find? (fun p => p.1 = reprName a)).map
        (fun p => p.2) = nonNone (fgetattr st1 a) :=
      find_filterMap_keyed (reprAttrNames desc) reprName
        (fun a => nonNone (fgetattr st1 a)) hn a ha
    have h2 : ((reprAttrs desc st2).find? (fun p => p.1 = reprName a)).map
        (fun p => p.2) = nonNone (fgetattr st2 a) :=
      find_filterMap_keyed (reprAttrNames desc) reprName
        (fun a => nonNone (fgetattr st2 a)) hn a ha
    rw [heq] at h1
    exact nonNone_inj _ _ (h1.symm.trans h2)
  · intro hpt
    unfold reprAttrs
    apply List.filterMap_congr
    intro a ha
    rw [hpt a ha]

/-- C8 (counterexample): two `Name`s differing only in `display` have
different `to_dict` serializations yet are equal (repr ignores `display`);
and `Name(first="")` and `Name()` serialize identically yet are unequal
(repr keeps the empty string, `to_dict` drops it). -/
theorem C8_counterexample :
    (reprAttrs nameDesc (nState (.str "Al") (.str "Kent") (.str "X")) =
        reprAttrs nameDesc (nState (.str "Al") (.str "Kent") (.str "Y")) ∧
      fieldToDict nameDesc (nState (.str "Al") (.str "Kent") (.str "X")) ≠
        fieldToDict nameDesc (nState (.str "Al") (.str "Kent") (.str "Y"))) ∧
    (fieldToDict nameDesc (nState (.str "") .none .none) =
        fieldToDict nameDesc (nState .none .none .none) ∧
      reprAttrs nameDesc (nState (.str "") .none .none) ≠
        reprAttrs nameDesc (nState .none .none .none)) := by
  refine ⟨⟨?_, ?_⟩, ?_, ?_⟩ <;> decide

/-- C8 (amended): for every one of the sixteen field variants, two fields
of that variant are equal (`Field.__eq__` compares repr strings) iff they
agree pointwise on every non-`display` attribute — i.e. structural content
equality over the repr'd attribute set, which excludes `display`-prefixed
attributes and keeps falsy-but-non-null values, rather than equality of
`to_dict` output. -/
theorem C8_field_eq :
    ∀ desc ∈ allFieldDescs, ∀ st1 st2 : FieldState,
      (reprAttrs desc st1 = reprAttrs desc st2 ↔
        ∀ a ∈ reprAttrNames desc, fgetattr st1 a = fgetattr st2 a) := by
  have hnod : ∀ desc ∈ allFieldDescs, ((reprAttrNames desc).map reprName).Nodup := by decide
  intro desc hdesc st1 st2
  exact reprAttrs_eq_iff desc (hnod desc hdesc) st1 st2

/-- C8 (witness): two concrete `Name`s differing only in `display` are
equal. -/
theorem C8_witness :
    nameDesc ∈ allFieldDescs ∧
    reprAttrs nameDesc (nState .none .none (.str "A")) =
      reprAttrs nameDesc (nState .none .none (.str "B")) :=
  ⟨List.mem_cons_self nameDesc _,
    (C8_field_eq nameDesc (List.mem_cons_self nameDesc _) (nState .none .none (.str "A"))
      (nState .none .none (.str "B"))).mpr (by decide)⟩

/-! ## C1: the to_dict/from_dict round trip -/

theorem dictSet_fresh (d : Dict) (k : String) (v : JVal)
    (h : d.any (fun p => p.1 = k) = false) : dictSet d k v = d ++ [(k, v)] := by
  unfold dictSet
  rw [h]
  simp

theorem nodup_keys_val_unique (d : Dict) (hn : (d.map (fun p => p.1)).Nodup)
    (k : String) (v : JVal) (h : dlookup d k = some v) :
    ∀ p ∈ d, p.1 = k → p.2 = v := by
  induction d with
  | nil => simp [dlookup] at h
  | cons q d ih =>
    have hn2 : (d.map (fun p => p.1)).Nodup := (List.nodup_cons.mp hn).2
    have hq : ¬ q.1 ∈ d.map (fun p => p.1) := (List.nodup_cons.mp hn).1
    intro p hp hpk
    by_cases hqk : q.1 = k
    · have hv : q.2 = v := by
        unfold dlookup at h
        rw [List.find?_cons_of_pos _ (by simpa using hqk)] at h
        simpa using h
      rcases List.mem_cons.mp hp with h1 | h1
      · rw [h1, hv]
      · exfalso
        apply hq
        rw [hqk, ← hpk]
        exact List.mem_map_of_mem (fun p => p.1) h1
    · rcases List.mem_cons.mp hp with h1 | h1
      · exact absurd (h1 ▸ hpk) hqk
      · unfold dlookup at h
        rw [List.find?_cons_of_neg _ (by simpa using hqk)] at h
        exact ih hn2 h p h1 hpk

theorem dictSet_same (d : Dict) (k : String) (v : JVal)
    (h : ∀ p ∈ d, p.1 = k → p.2 = v)
    (hmem : d.any (fun p => p.1 = k) = true) : dictSet d k v = d := by
  unfold dictSet
  rw [hmem]
  simp only [if_true]
  conv_rhs => rw [← List.map_id d]
  apply List.map_congr_left
  intro p hp
  by_cases hpk : p.1 = k
  · rw [if_pos hpk]
    have := h p hp hpk
    cases p
    simp only at hpk this
    rw [hpk, this]
    rfl
  · rw [if_neg hpk]
    rfl

theorem foldl_dictSet_filterMap (entries : List (String × String))
    (F : String × String → Option JVal) (d0 : Dict)
    (hn : (entries.map (fun pa => pa.1 ++ pa.2)).Nodup)
    (hfresh : ∀ pa ∈ entries, ∀ p ∈ d0, ¬ p.1 = pa.1 ++ pa.2) :
    entries.foldl (fun d pa =>
      match F pa with
      | some jv => dictSet d (pa.1 ++ pa.2) jv
      | Option.none => d) d0 =
    d0 ++ entries.filterMap (fun pa => (F pa).map (fun jv => (pa.1 ++ pa.2, jv))) := by
  induction entries generalizing d0 with
  | nil => simp
  | cons pa rest ih =>
    have hn2 : (rest.map (fun pa => pa.1 ++ pa.2)).Nodup := (List.nodup_cons.mp hn).2
    have hnx : ¬ (pa.1 ++ pa.2) ∈ rest.map (fun pa => pa.1 ++ pa.2) :=
      (List.nodup_cons.mp hn).1
    cases hF : F pa with
    | none =>
      rw [List.foldl_cons]
      show List.foldl _ (match F pa with
        | some jv => dictSet d0 (pa.1 ++ pa.2) jv
        | Option.none => d0) rest = _
      rw [hF]
      show List.foldl _ d0 rest = _
      rw [ih d0 hn2 (fun qa hqa p hp => hfresh qa (List.mem_cons_of_mem pa hqa) p hp)]
      simp [List.filterMap_cons, hF]
    | some jv =>
      rw [List.foldl_cons]
      show List.foldl _ (match F pa with
        | some jv => dictSet d0 (pa.1 ++ pa.2) jv
        | Option.none => d0) rest = _
      rw [hF]
      show List.foldl _ (dictSet d0 (pa.1 ++ pa.2) jv) rest = _
      have hany : d0.any (fun p => p.1 = (pa.1 ++ pa.2)) = false := by
        rw [List.any_eq_false]
        intro p hp
        simpa using hfresh pa (List.mem_cons_self pa rest) p hp
      rw [dictSet_fresh d0 _ jv hany]
      have hfresh2 : ∀ qa ∈ rest, ∀ p ∈ d0 ++ [(pa.1 ++ pa.2, jv)], ¬ p.1 = qa.1 ++ qa.2 := by
        intro qa hqa p hp
        rcases List.mem_append.mp hp with h1 | h1
        · exact hfresh qa (List.mem_cons_of_mem pa hqa) p h1
        · have hpv : p = (pa.1 ++ pa.2, jv) := by simpa using h1
          rw [hpv]
          intro hcon
          apply hnx
          rw [show pa.1 ++ pa.2 = qa.1 ++ qa.2 from hcon]
          exact List.mem_map_of_mem (fun pa => pa.1 ++ pa.2) hqa
      rw [ih (d0 ++ [(pa.1 ++ pa.2, jv)]) hn2 hfresh2]
      simp [List.filterMap_cons, hF, List.append_assoc]

theorem prefixedAttrs_snd (desc : FieldDesc) :
    (prefixedAttrs desc).map (fun pa => pa.2) = storedAttrs desc := by
  simp [prefixedAttrs, storedAttrs]

theorem mem_prefixedAttrs (desc : FieldDesc) (pa : String × String)
    (h : pa ∈ prefixedAttrs desc) :
    (pa.1 = "@" ∨ pa.1 = "") ∧ pa.2 ∈ storedAttrs desc := by
  constructor
  · simp only [prefixedAttrs, List.mem_append, List.mem_map] at h
    rcases h with (⟨a, _, ha⟩ | ⟨a, _, ha⟩) | ⟨a, _, ha⟩ <;> rw [← ha] <;> simp
  · have := List.mem_map_of_mem (fun pa => pa.2) h
    rwa [prefixedAttrs_snd] at this

theorem stored_exists_pfx (desc : FieldDesc) (a : String) (ha : a ∈ storedAttrs desc) :
    ∃ pfx, (pfx, a) ∈ prefixedAttrs desc := by
  simp only [storedAttrs, List.mem_append] at ha
  rcases ha with (ha | ha) | ha
  · refine ⟨"@", ?_⟩
    unfold prefixedAttrs
    exact List.mem_append_left _ (List.mem_append_left _
      (List.mem_map_of_mem (fun a => ("@", a)) ha))
  · refine ⟨"@", ?_⟩
    unfold prefixedAttrs
    exact List.mem_append_left _ (List.mem_append_right _
      (List.mem_map_of_mem (fun a => ("@", a)) ha))
  · refine ⟨"", ?_⟩
    unfold prefixedAttrs
    exact List.mem_append_right _ (List.mem_map_of_mem (fun a => ("", a)) ha)

theorem string_mk_data (s : String) : String.mk s.data = s := by
  cases s
  rfl

theorem empty_append_str (a : String) : "" ++ a = a := by
  have h : ("" ++ a).data = a.data := by
    rw [String.data_append]
    rfl
  cases a
  cases h
  rfl

theorem at_append_data (a : String) : ("@" ++ a).data = '@' :: a.data := by
  rw [String.data_append]
  rfl

theorem stripAt_at (a : String) : stripAt ("@" ++ a) = a := by
  unfold stripAt
  rw [at_append_data]
  exact string_mk_data a

theorem at_append_ne (a s : String) (h : ¬ s.data.head? = some '@') : ¬ ("@" ++ a) = s := by
  intro he
  apply h
  rw [← he, at_append_data]
  rfl

theorem fgetattr_mem (st : FieldState) (a : String) (h : a ∈ st.map (fun p => p.1)) :
    (a, fgetattr st a) ∈ st := by
  induction st with
  | nil => simp at h
  | cons p st ih =>
    rw [List.map_cons] at h
    by_cases hp : p.1 = a
    · have hget : fgetattr (p :: st) a = p.2 := by
        simp [fgetattr, List.find?, hp]
      rw [hget]
      have hpe : (a, p.2) = p := by
        obtain ⟨p1, p2⟩ := p
        simp only at hp
        rw [hp]
      rw [hpe]
      exact List.mem_cons_self p st
    · have hmem : a ∈ st.map (fun q => q.1) := by
        rcases List.mem_cons.mp h with h1 | h1
        · exact absurd h1.symm hp
        · exact h1
      have hget : fgetattr (p :: st) a = fgetattr st a := by
        simp [fgetattr, List.find?, hp]
      rw [hget]
      exact List.mem_cons_of_mem p (ih hmem)

theorem fgetattr_of_mem (st : FieldState) (hnk : (st.map (fun p => p.1)).Nodup)
    (p : String × PyVal) (hp : p ∈ st) : fgetattr st p.1 = p.2 := by
  induction st with
  | nil => simp at hp
  | cons q rest ih =>
    rcases List.mem_cons.mp hp with rfl | hp2
    · simp [fgetattr, List.find?]
    · have hq : ¬ q.1 = p.1 := by
        intro hc
        apply (List.nodup_cons.mp hnk).1
        show q.1 ∈ List.map (fun r => r.1) rest
        rw [hc]
        exact List.mem_map_of_mem (fun r => r.1) hp2
      have htail := ih (List.nodup_cons.mp hnk).2 hp2
      simpa [fgetattr, List.find?, hq] using htail

theorem datetimeFree_fgetattr (st : FieldState) (h : datetimeFree st = true)
    (a : String) (d : PyDate) (t : Nat) : ¬ fgetattr st a = PyVal.pydatetime d t := by
  intro hc
  unfold fgetattr at hc
  cases hf : st.find? (fun p => p.1 = a) with
  | none =>
    rw [hf] at hc
    exact PyVal.noConfusion hc
  | some p =>
    rw [hf] at hc
    have hc2 : p.2 = PyVal.pydatetime d t := hc
    have hmem := List.mem_of_find?_eq_some hf
    unfold datetimeFree at h
    have h3 : (! isPydatetime p.2) = true := List.all_eq_true.mp h p hmem
    rw [hc2] at h3
    exact Bool.noConfusion h3

theorem stateWF_attr (desc : FieldDesc) (st : FieldState) (hst : StateWF desc st)
    (a : String) (ha : a ∈ storedAttrs desc) :
    attrValWFb desc a (fgetattr st a) = true := by
  obtain ⟨hkeys, hvals⟩ := hst
  exact hvals (a, fgetattr st a) (fgetattr_mem st a (hkeys ▸ ha))

theorem mainDict_keys (desc : FieldDesc) (st : FieldState) (p : String × JVal)
    (hp : p ∈ mainDict desc st) :
    ∃ pa ∈ prefixedAttrs desc, p.1 = pa.1 ++ pa.2 := by
  unfold mainDict at hp
  rcases List.mem_filterMap.mp hp with ⟨pa, hpa, heq⟩
  refine ⟨pa, hpa, ?_⟩
  cases hemit : emitVal (fgetattr st pa.2) with
  | none =>
    rw [hemit] at heq
    exact absurd heq (by simp)
  | some jv =>
    rw [hemit] at heq
    have heq2 : some (pa.1 ++ pa.2, jv) = some p := heq
    injection heq2 with heq3
    rw [← heq3]

theorem dlookup_mainDict (desc : FieldDesc) (st : FieldState)
    (hn : ((prefixedAttrs desc).map (fun pa => pa.1 ++ pa.2)).Nodup)
    (pa : String × String) (hpa : pa ∈ prefixedAttrs desc) :
    dlookup (mainDict desc st) (pa.1 ++ pa.2) = emitVal (fgetattr st pa.2) := by
  have h := find_filterMap_keyed (prefixedAttrs desc) (fun pa => pa.1 ++ pa.2)
    (fun pa => emitVal (fgetattr st pa.2)) hn pa hpa
  exact h

theorem find?_pred {α : Type} (p : α → Bool) (l : List α) (a : α)
    (h : l.find? p = some a) : p a = true := by
  induction l with
  | nil => simp at h
  | cons x xs ih =>
    rw [List.find?_cons] at h
    split at h
    · injection h with h1
      rw [← h1]
      assumption
    · exact ih h

theorem any_of_dlookup (d : Dict) (k : String) (v : JVal) (h : dlookup d k = some v) :
    d.any (fun p => p.1 = k) = true := by
  unfold dlookup at h
  cases hf : d.find? (fun p => p.1 = k) with
  | none =>
    rw [hf] at h
    exact absurd h (by simp)
  | some p =>
    have hmem : p ∈ d := List.mem_of_find?_eq_some hf
    have hpred := find?_pred _ d p hf
    rw [List.any_eq_true]
    exact ⟨p, hmem, hpred⟩

theorem keys_filterMap_sublist {α β : Type} (l : List α) (key : α → String)
    (F : α → Option β) :
    ((l.filterMap (fun x => (F x).map (fun v => (key x, v)))).map
      (fun p => p.1)).Sublist (l.map key) := by
  induction l with
  | nil => simp
  | cons x xs ih =>
    cases hF : F x with
    | none =>
      simp only [List.filterMap_cons, hF, List.map_cons]
      exact ih.cons (key x)
    | some v =>
      simp only [List.filterMap_cons, hF, List.map_cons]
      exact ih.cons₂ (key x)

theorem mainDict_keys_nodup (desc : FieldDesc) (st : FieldState)
    (hn : ((prefixedAttrs desc).map (fun pa => pa.1 ++ pa.2)).Nodup) :
    ((mainDict desc st).map (fun p => p.1)).Nodup :=
  (keys_filterMap_sublist (prefixedAttrs desc) (fun pa => pa.1 ++ pa.2)
    (fun pa => emitVal (fgetattr st pa.2))).nodup hn

theorem plain_truthy_emit (v : PyVal) (hwf : plainWFb v = true) (ht : v.truthy = true) :
    emitVal v = some (encodeDisplay v) := by
  cases v <;> simp_all [plainWFb, PyVal.truthy, emitVal, encodeDisplay]

theorem rangeWF_to_dict_ne (r : DRange) (h : rangeWFb r = true) : ¬ r.to_dict = [] := by
  simp only [rangeWFb, Bool.and_eq_true, decide_eq_true_eq] at h
  obtain ⟨⟨⟨hne, _⟩, _⟩, _⟩ := h
  obtain ⟨s1, s2⟩ := r
  rcases hne with h1 | h1
  · cases s1 with
    | none => simp at h1
    | some s => simp [DRange.to_dict]
  · cases s2 with
    | none => simp at h1
    | some e => cases s1 <;> simp [DRange.to_dict]

theorem emit_none_of_wf (desc : FieldDesc) (a : String) (v : PyVal)
    (hempty : ¬ "" ∈ desc.types_set)
    (hv : attrValWFb desc a v = true) (h : emitVal v = Option.none) : v = .none := by
  cases v with
  | none => rfl
  | str s =>
    exfalso
    have hs : s = "" := by
      by_cases hs : s = ""
      · exact hs
      · simp [emitVal, hs] at h
    subst hs
    unfold attrValWFb at hv
    split at hv
    · exact absurd hv (by simp)
    · split at hv
      · exact absurd hv (by simp)
      · split at hv
        · exact hempty (by simpa using hv)
        · split at hv
          · have : pyLower "" ∈ genders := by simpa using hv
            exact absurd this (by decide)
          · split at hv
            · simp at hv
            · simp [plainWFb] at hv
  | int n => simp [emitVal] at h
  | bool b => simp [emitVal] at h
  | floatv q =>
    exfalso
    unfold attrValWFb at hv
    split at hv
    · exact absurd hv (by simp)
    · split at hv
      · exact absurd hv (by simp)
      · split at hv
        · exact absurd hv (by simp)
        · split at hv
          · exact absurd hv (by simp)
          · split at hv
            · exact absurd hv (by simp)
            · simp [plainWFb] at hv
  | pydate d => simp [emitVal] at h
  | pydatetime d s => simp [emitVal] at h
  | drange r =>
    exfalso
    have hrwf : rangeWFb r = true := by
      unfold attrValWFb at hv
      split at hv
      · exact absurd hv (by simp)
      · split at hv
        · exact hv
        · split at hv
          · exact absurd hv (by simp)
          · split at hv
            · exact absurd hv (by simp)
            · split at hv
              · exact absurd hv (by simp)
              · simp [plainWFb] at hv
    have hne := rangeWF_to_dict_ne r hrwf
    simp [emitVal, hne] at h
  | pdict kvs =>
    exfalso
    unfold attrValWFb at hv
    split at hv
    · exact absurd hv (by simp)
    · split at hv
      · exact absurd hv (by simp)
      · split at hv
        · exact absurd hv (by simp)
        · split at hv
          · exact absurd hv (by simp)
          · split at hv
            · exact absurd hv (by simp)
            · simp [plainWFb] at hv

theorem dictSet_stored_same (desc : FieldDesc) (st : FieldState)
    (hn : ((prefixedAttrs desc).map (fun pa => pa.1 ++ pa.2)).Nodup)
    (a : String) (hpaA : ("", a) ∈ prefixedAttrs desc)
    (hplainA : plainWFb (fgetattr st a) = true)
    (htr : (fgetattr st a).truthy = true) :
    dictSet (mainDict desc st) a (encodeDisplay (fgetattr st a)) = mainDict desc st := by
  have hemit := plain_truthy_emit _ hplainA htr
  have hlook : dlookup (mainDict desc st) a = some (encodeDisplay (fgetattr st a)) := by
    have h := dlookup_mainDict desc st hn ("", a) hpaA
    rw [show ("" : String) ++ a = a from empty_append_str a] at h
    rw [h]
    exact hemit
  exact dictSet_same (mainDict desc st) a _
    (nodup_keys_val_unique _ (mainDict_keys_nodup desc st hn) _ _ hlook)
    (any_of_dlookup _ _ _ hlook)

theorem child_mem_prefixed (desc : FieldDesc) (a : String) (h : a ∈ desc.children) :
    ("", a) ∈ prefixedAttrs desc := by
  unfold prefixedAttrs
  exact List.mem_append_right _ (List.mem_map_of_mem (fun a => ("", a)) h)

theorem child_mem_stored (desc : FieldDesc) (a : String) (h : a ∈ desc.children) :
    a ∈ storedAttrs desc := by
  simp [storedAttrs, h]

theorem attrValWF_display_plain (desc : FieldDesc) (v : PyVal)
    (h : attrValWFb desc "display" v = true) : plainWFb v = true := by
  unfold attrValWFb at h
  rw [if_neg (by decide), if_neg (by decide), if_neg (by decide),
    if_neg (fun hc => absurd hc.1 (by decide)),
    if_neg (fun hc => absurd hc.1 (by decide))] at h
  exact h

theorem attrValWF_dispintl_plain (desc : FieldDesc) (v : PyVal)
    (h : attrValWFb desc "display_international" v = true) : plainWFb v = true := by
  unfold attrValWFb at h
  rw [if_neg (by decide), if_neg (by decide), if_neg (by decide),
    if_neg (fun hc => absurd hc.1 (by decide)),
    if_neg (fun hc => absurd hc.1 (by decide))] at h
  exact h

theorem attrValWF_pydatetime_key (desc : FieldDesc) (a : String) (d : PyDate) (t : Nat)
    (h : attrValWFb desc a (.pydatetime d t) = true) :
    a = "valid_since" ∨ a = "last_seen" := by
  by_cases h1 : a = "valid_since" ∨ a = "last_seen"
  · exact h1
  · exfalso
    unfold attrValWFb at h
    rw [if_neg h1] at h
    split at h
    · exact Bool.noConfusion h
    · split at h
      · exact Bool.noConfusion h
      · split at h
        · exact Bool.noConfusion h
        · split at h
          · exact Bool.noConfusion h
          · exact Bool.noConfusion h

theorem attrValWF_vs_shape (desc : FieldDesc) (a : String)
    (ha : a = "valid_since" ∨ a = "last_seen") (v : PyVal)
    (h : attrValWFb desc a v = true) :
    v = PyVal.none ∨ ∃ d t, v = PyVal.pydatetime d t := by
  unfold attrValWFb at h
  rw [if_pos ha] at h
  cases v with
  | none => exact Or.inl rfl
  | pydatetime d t => exact Or.inr ⟨d, t, rfl⟩
  | str s => exact Bool.noConfusion h
  | int n => exact Bool.noConfusion h
  | bool b => exact Bool.noConfusion h
  | floatv q => exact Bool.noConfusion h
  | pydate dd => exact Bool.noConfusion h
  | drange r => exact Bool.noConfusion h
  | pdict kvs => exact Bool.noConfusion h

/-- Under the well-formedness conditions, `Field.to_dict` is the main
attribute dict followed by the computed-display entry (for stored-display
variants the trailing `display`/`display_international` writes rewrite
already-present entries with the same values). -/
theorem fieldToDict_eq (desc : FieldDesc) (st : FieldState) (hd : DescWF desc)
    (hst : StateWF desc st) :
    fieldToDict desc st = mainDict desc st ++ displayExtra desc st := by
  obtain ⟨hn1, hn2, hn3, hn4, hstrip, hnotu, hdispS, hdispN, hphone, hcont, hempty⟩ := hd
  have hfold : (prefixedAttrs desc).foldl (fun d pa =>
      match emitVal (fgetattr st pa.2) with
      | some jv => dictSet d (pa.1 ++ pa.2) jv
      | Option.none => d) [] = mainDict desc st := by
    have h := foldl_dictSet_filterMap (prefixedAttrs desc)
      (fun pa => emitVal (fgetattr st pa.2)) [] hn3 (by simp)
    simpa [mainDict] using h
  unfold fieldToDict
  rw [hfold]
  cases hdf : desc.displayFn with
  | some f =>
    have hnd := hdispS (by rw [hdf]; rfl)
    have hpeF : desc.phoneExtra = false := by
      cases hpc : desc.phoneExtra
      · rfl
      · have h2 := (hphone hpc).2
        rw [hdf] at h2
        exact absurd h2 (by simp)
    have hdv : displayValue desc st = f st := by
      simp [displayValue, hdf]
    unfold phoneStep displayStep
    rw [hdv, hpeF]
    simp only [Bool.false_eq_true, if_false]
    by_cases htr : (f st).truthy = true
    · rw [if_pos htr]
      have hfreshD : (mainDict desc st).any (fun p => p.1 = "display") = false := by
        rw [List.any_eq_false]
        intro p hp
        obtain ⟨pa, hpa, hkey⟩ := mainDict_keys desc st p hp
        obtain ⟨hfst, hsnd⟩ := mem_prefixedAttrs desc pa hpa
        simp only [decide_eq_true_eq]
        rcases hfst with h1 | h1
        · rw [hkey, h1]
          exact at_append_ne pa.2 "display" (by decide)
        · rw [hkey, h1, empty_append_str]
          intro hcon
          exact hnd.1 (hcon ▸ hsnd)
      rw [dictSet_fresh _ _ _ hfreshD]
      simp [displayExtra, hdf, htr]
    · rw [if_neg htr]
      simp [displayExtra, hdf, htr]
  | none =>
    have hdmem := hdispN (by rw [hdf]; rfl)
    have hdstored := child_mem_stored desc "display" hdmem
    have hdv : displayValue desc st = fgetattr st "display" := by
      simp [displayValue, hdf]
    have hplainD := attrValWF_display_plain desc _ (stateWF_attr desc st hst "display" hdstored)
    have hstep1 : displayStep desc st (mainDict desc st) = mainDict desc st := by
      unfold displayStep
      rw [hdv]
      by_cases htr : (fgetattr st "display").truthy = true
      · rw [if_pos htr]
        exact dictSet_stored_same desc st hn3 "display" (child_mem_prefixed desc _ hdmem)
          hplainD htr
      · rw [if_neg htr]
    rw [hstep1]
    have hextra : displayExtra desc st = [] := by
      simp [displayExtra, hdf]
    rw [hextra, List.append_nil]
    unfold phoneStep
    cases hpc : desc.phoneExtra with
    | false => simp
    | true =>
      simp only [if_true]
      have hdimem := (hphone hpc).1
      have hdistored := child_mem_stored desc _ hdimem
      have hplainI := attrValWF_dispintl_plain desc _
        (stateWF_attr desc st hst "display_international" hdistored)
      by_cases htr2 : (fgetattr st "display_international").truthy = true
      · rw [if_pos htr2]
        exact dictSet_stored_same desc st hn3 "display_international"
          (child_mem_prefixed desc _ hdimem) hplainI htr2
      · rw [if_neg htr2]

theorem plain_attr_val (desc : FieldDesc) (a : String) (v : PyVal)
    (h1 : ¬ a = "type") (h2 : ¬ a = "valid_since") (h3 : ¬ a = "last_seen")
    (h4 : ¬ a = "date_range") (hv : attrValWFb desc a v = true) :
    v = .none ∨ (∃ s, v = .str s) ∨ (∃ n, v = .int n) ∨ (∃ b, v = .bool b) := by
  unfold attrValWFb at hv
  rw [if_neg (by rintro (h | h); exact h2 h; exact h3 h), if_neg h4, if_neg h1] at hv
  split at hv
  · cases v with
    | str s => exact .inr (.inl ⟨s, rfl⟩)
    | none => exact Bool.noConfusion hv
    | int n => exact Bool.noConfusion hv
    | bool b => exact Bool.noConfusion hv
    | floatv q => exact Bool.noConfusion hv
    | pydate d => exact Bool.noConfusion hv
    | pydatetime d s => exact Bool.noConfusion hv
    | drange r => exact Bool.noConfusion hv
    | pdict kvs => exact Bool.noConfusion hv
  · split at hv
    · cases v with
      | str s => exact .inr (.inl ⟨s, rfl⟩)
      | none => exact Bool.noConfusion hv
      | int n => exact Bool.noConfusion hv
      | bool b => exact Bool.noConfusion hv
      | floatv q => exact Bool.noConfusion hv
      | pydate d => exact Bool.noConfusion hv
      | pydatetime d s => exact Bool.noConfusion hv
      | drange r => exact Bool.noConfusion hv
      | pdict kvs => exact Bool.noConfusion hv
    · cases v with
      | none => exact .inl rfl
      | str s => exact .inr (.inl ⟨s, rfl⟩)
      | int n => exact .inr (.inr (.inl ⟨n, rfl⟩))
      | bool b => exact .inr (.inr (.inr ⟨b, rfl⟩))
      | floatv q => exact Bool.noConfusion hv
      | pydate d => exact Bool.noConfusion hv
      | pydatetime d s => exact Bool.noConfusion hv
      | drange r => exact Bool.noConfusion hv
      | pdict kvs => exact Bool.noConfusion hv

theorem setVal_wf (desc : FieldDesc) (a : String) (v : PyVal)
    (hv : attrValWFb desc a v = true) : setVal desc a v = .ok v := by
  unfold setVal
  by_cases h1 : a = "type"
  · subst h1
    rw [if_pos rfl]
    unfold attrValWFb at hv
    rw [if_neg (by decide), if_neg (by decide), if_pos rfl] at hv
    cases v with
    | none => rfl
    | str s =>
      have hs : s ∈ desc.types_set := by simpa using hv
      simp [validateTypeCoerce, hs]
    | int n => exact Bool.noConfusion hv
    | bool b => exact Bool.noConfusion hv
    | floatv q => exact Bool.noConfusion hv
    | pydate d => exact Bool.noConfusion hv
    | pydatetime d s => exact Bool.noConfusion hv
    | drange r => exact Bool.noConfusion hv
    | pdict kvs => exact Bool.noConfusion hv
  · rw [if_neg h1]
    by_cases h2 : a = "content"
    · subst h2
      rw [if_pos rfl]
      cases hr : desc.contentRule with
      | plain => rfl
      | genderRule =>
        unfold attrValWFb at hv
        rw [if_neg (by decide), if_neg (by decide), if_neg (by decide),
          if_pos ⟨rfl, hr⟩] at hv
        cases v with
        | str s =>
          have hg : pyLower s ∈ genders := by simpa using hv
          simp [hg]
        | none => exact Bool.noConfusion hv
        | int n => exact Bool.noConfusion hv
        | bool b => exact Bool.noConfusion hv
        | floatv q => exact Bool.noConfusion hv
        | pydate d => exact Bool.noConfusion hv
        | pydatetime d s => exact Bool.noConfusion hv
        | drange r => exact Bool.noConfusion hv
        | pdict kvs => exact Bool.noConfusion hv
      | ethnicityRule =>
        unfold attrValWFb at hv
        rw [if_neg (by decide), if_neg (by decide), if_neg (by decide),
          if_neg (fun hc => by rw [hr] at hc; exact ContentRule.noConfusion hc.2),
          if_pos ⟨rfl, hr⟩] at hv
        cases v with
        | str s =>
          have hl : pyLower s = s := by
            have := hv
            simp only [Bool.and_eq_true, decide_eq_true_eq] at this
            exact this.2
          simp [hl]
        | none => exact Bool.noConfusion hv
        | int n => exact Bool.noConfusion hv
        | bool b => exact Bool.noConfusion hv
        | floatv q => exact Bool.noConfusion hv
        | pydate d => exact Bool.noConfusion hv
        | pydatetime d s => exact Bool.noConfusion hv
        | drange r => exact Bool.noConfusion hv
        | pdict kvs => exact Bool.noConfusion hv
    · rw [if_neg h2]

theorem decodeEntry_emit (desc : FieldDesc) (hempty : ¬ "" ∈ desc.types_set)
    (pfx a : String) (hstrip : stripAt a = a) (hpfx : pfx = "@" ∨ pfx = "")
    (v : PyVal) (hdt : ∀ dd tt, ¬ v = PyVal.pydatetime dd tt)
    (hv : attrValWFb desc a v = true) (jv : JVal)
    (hjv : emitVal v = some jv) :
    decodeEntry (pfx ++ a) jv = .ok (paramName a, v) := by
  have hkey : stripAt (pfx ++ a) = a := by
    rcases hpfx with h | h
    · rw [h]
      exact stripAt_at a
    · rw [h, empty_append_str]
      exact hstrip
  unfold decodeEntry
  rw [hkey]
  by_cases h1 : a = "type"
  · subst h1
    rw [if_pos rfl]
    unfold attrValWFb at hv
    rw [if_neg (by decide), if_neg (by decide), if_pos rfl] at hv
    cases v with
    | str s =>
      have hs : s ∈ desc.types_set := by simpa using hv
      have hne : ¬ s = "" := fun he => hempty (he ▸ hs)
      have hjv2 : jv = .str s := by
        simp [emitVal, hne] at hjv
        exact hjv.symm
      rw [hjv2]
      rfl
    | none => simp [emitVal] at hjv
    | int n => exact Bool.noConfusion hv
    | bool b => exact Bool.noConfusion hv
    | floatv q => exact Bool.noConfusion hv
    | pydate d => exact Bool.noConfusion hv
    | pydatetime d s => exact Bool.noConfusion hv
    | drange r => exact Bool.noConfusion hv
    | pdict kvs => exact Bool.noConfusion hv
  · rw [if_neg h1]
    by_cases h2 : a = "valid_since"
    · subst h2
      rw [if_pos rfl]
      unfold attrValWFb at hv
      rw [if_pos (.inl rfl)] at hv
      cases v with
      | pydatetime d s => exact absurd rfl (hdt d s)
      | none => simp [emitVal] at hjv
      | str s => exact Bool.noConfusion hv
      | int n => exact Bool.noConfusion hv
      | bool b => exact Bool.noConfusion hv
      | floatv q => exact Bool.noConfusion hv
      | pydate d => exact Bool.noConfusion hv
      | drange r => exact Bool.noConfusion hv
      | pdict kvs => exact Bool.noConfusion hv
    · rw [if_neg h2]
      by_cases h3 : a = "last_seen"
      · subst h3
        rw [if_pos rfl]
        unfold attrValWFb at hv
        rw [if_pos (.inr rfl)] at hv
        cases v with
        | pydatetime d s => exact absurd rfl (hdt d s)
        | none => simp [emitVal] at hjv
        | str s => exact Bool.noConfusion hv
        | int n => exact Bool.noConfusion hv
        | bool b => exact Bool.noConfusion hv
        | floatv q => exact Bool.noConfusion hv
        | pydate d => exact Bool.noConfusion hv
        | drange r => exact Bool.noConfusion hv
        | pdict kvs => exact Bool.noConfusion hv
      · rw [if_neg h3]
        by_cases h4 : a = "date_range"
        · subst h4
          rw [if_pos rfl]
          unfold attrValWFb at hv
          rw [if_neg (by decide), if_pos rfl] at hv
          cases v with
          | drange r =>
            have hrwf : rangeWFb r = true := by simpa using hv
            have hne := rangeWF_to_dict_ne r hrwf
            have hjv2 : jv = .dobj r.to_dict := by
              simp [emitVal, hne] at hjv
              exact hjv.symm
            rw [hjv2]
            simp [dateRangeFromDictJ, drange_from_to r hrwf, Except.map, paramName]
          | none => simp [emitVal] at hjv
          | str s => exact Bool.noConfusion hv
          | int n => exact Bool.noConfusion hv
          | bool b => exact Bool.noConfusion hv
          | floatv q => exact Bool.noConfusion hv
          | pydate d => exact Bool.noConfusion hv
          | pydatetime d s => exact Bool.noConfusion hv
          | pdict kvs => exact Bool.noConfusion hv
        · rw [if_neg h4]
          have hpn : paramName a = a := by
            simp [paramName, h1]
          rw [hpn]
          rcases plain_attr_val desc a v h1 h2 h3 h4 hv with hc | ⟨s, hc⟩ | ⟨n, hc⟩ | ⟨b, hc⟩
          · subst hc
            simp [emitVal] at hjv
          · subst hc
            by_cases hs : s = ""
            · subst hs
              simp [emitVal] at hjv
            · have hjv2 : jv = .str s := by
                simp [emitVal, hs] at hjv
                exact hjv.symm
              rw [hjv2]
              rfl
          · subst hc
            have hjv2 : jv = .int n := by
              simp [emitVal] at hjv
              exact hjv.symm
            rw [hjv2]
            rfl
          · subst hc
            have hjv2 : jv = .bool b := by
              simp [emitVal] at hjv
              exact hjv.symm
            rw [hjv2]
            rfl

theorem decodeItems_filterMap {α : Type} (l : List α) (F : α → Option (String × JVal))
    (G : α → Option (String × PyVal))
    (h : ∀ x ∈ l, match F x, G x with
      | some p, some q => decodeEntry p.1 p.2 = .ok q
      | Option.none, Option.none => True
      | _, _ => False) :
    decodeItems (l.filterMap F) = .ok (l.filterMap G) := by
  induction l with
  | nil => rfl
  | cons x xs ih =>
    have hx := h x (List.mem_cons_self x xs)
    have hxs := ih (fun y hy => h y (List.mem_cons_of_mem x hy))
    cases hFx : F x with
    | none =>
      cases hGx : G x with
      | none => simpa [List.filterMap_cons, hFx, hGx] using hxs
      | some q =>
        rw [hFx, hGx] at hx
        exact hx.elim
    | some p =>
      cases hGx : G x with
      | none =>
        rw [hFx, hGx] at hx
        exact hx.elim
      | some q =>
        rw [hFx, hGx] at hx
        obtain ⟨k, jv⟩ := p
        simp only [List.filterMap_cons, hFx, hGx]
        show decodeItems ((k, jv) :: xs.filterMap F) = _
        unfold decodeItems
        rw [hx, hxs]
        simp [bind, Except.bind, pure, Except.pure]

theorem decodeItems_append (d1 d2 : Dict) (o1 o2 : List (String × PyVal))
    (h1 : decodeItems d1 = .ok o1) (h2 : decodeItems d2 = .ok o2) :
    decodeItems (d1 ++ d2) = .ok (o1 ++ o2) := by
  induction d1 generalizing o1 with
  | nil =>
    have ho : o1 = [] := by
      simpa [decodeItems] using h1.symm
    subst ho
    simpa using h2
  | cons p rest ih =>
    obtain ⟨k, jv⟩ := p
    cases he : decodeEntry k jv with
    | error e =>
      unfold decodeItems at h1
      rw [he] at h1
      simp [bind, Except.bind] at h1
    | ok q =>
      cases hr : decodeItems rest with
      | error e =>
        unfold decodeItems at h1
        rw [he, hr] at h1
        simp [bind, Except.bind] at h1
      | ok os =>
        have ho : o1 = q :: os := by
          unfold decodeItems at h1
          rw [he, hr] at h1
          simp [bind, Except.bind, pure, Except.pure] at h1
          exact h1.symm
        subst ho
        show decodeItems ((k, jv) :: (rest ++ d2)) = _
        unfold decodeItems
        rw [he, ih os hr]
        simp [bind, Except.bind, pure, Except.pure]

theorem decodeItems_error_mid (d1 : Dict) (o1 : List (String × PyVal)) (k : String)
    (jv : JVal) (d2 : Dict) (e : PyErr) (h1 : decodeItems d1 = .ok o1)
    (he : decodeEntry k jv = .error e) :
    decodeItems (d1 ++ (k, jv) :: d2) = .error e := by
  induction d1 generalizing o1 with
  | nil =>
    show decodeItems ((k, jv) :: d2) = _
    unfold decodeItems
    rw [he]
    simp [bind, Except.bind]
  | cons p rest ih =>
    obtain ⟨k1, jv1⟩ := p
    cases hdE : decodeEntry k1 jv1 with
    | error e1 =>
      unfold decodeItems at h1
      rw [hdE] at h1
      simp [bind, Except.bind] at h1
    | ok q =>
      cases hr : decodeItems rest with
      | error e1 =>
        unfold decodeItems at h1
        rw [hdE, hr] at h1
        simp [bind, Except.bind] at h1
      | ok os =>
        show decodeItems ((k1, jv1) :: (rest ++ (k, jv) :: d2)) = _
        unfold decodeItems
        rw [hdE, ih os hr]
        simp [bind, Except.bind]

theorem lookupKw_append (l1 l2 : List (String × PyVal)) (k : String) :
    lookupKw (l1 ++ l2) k =
      match lookupKw l1 k with
      | some v => some v
      | Option.none => lookupKw l2 k := by
  induction l1 with
  | nil => simp [lookupKw]
  | cons p rest ih =>
    by_cases hp : p.1 = k
    · simp [lookupKw, List.find?, hp]
    · simpa [lookupKw, List.find?, hp] using ih

theorem lookupKw_kwargsMain (desc : FieldDesc) (st : FieldState)
    (hn2 : ((storedAttrs desc).map paramName).Nodup)
    (a : String) (ha : a ∈ storedAttrs desc) :
    lookupKw (kwargsMain desc st) (paramName a) =
      (emitVal (fgetattr st a)).map (fun _ => fgetattr st a) := by
  obtain ⟨pfx, hpa⟩ := stored_exists_pfx desc a ha
  have hnod : ((prefixedAttrs desc).map (fun pa => paramName pa.2)).Nodup := by
    have hmm : (prefixedAttrs desc).map (fun pa => paramName pa.2) =
        ((prefixedAttrs desc).map (fun pa => pa.2)).map paramName := by
      rw [List.map_map]
      rfl
    rw [hmm, prefixedAttrs_snd]
    exact hn2
  exact find_filterMap_keyed (prefixedAttrs desc) (fun pa => paramName pa.2)
    (fun pa => (emitVal (fgetattr st pa.2)).map (fun _ => fgetattr st pa.2)) hnod (pfx, a) hpa

theorem constructAttrs_ok (desc : FieldDesc) (kwargs : List (String × PyVal))
    (val : String → PyVal) (attrs : List String)
    (h : ∀ a ∈ attrs,
      setVal desc a ((lookupKw kwargs (paramName a)).getD .none) = .ok (val a)) :
    constructAttrs desc kwargs attrs = .ok (attrs.map (fun a => (a, val a))) := by
  induction attrs with
  | nil => rfl
  | cons a rest ih =>
    have ha := h a (List.mem_cons_self a rest)
    have hrest := ih (fun b hb => h b (List.mem_cons_of_mem a hb))
    unfold constructAttrs
    rw [ha, hrest]
    simp [bind, Except.bind, pure, Except.pure]

theorem map_fst_eq_self (st : FieldState) (attrs : List String)
    (hk : st.map (fun p => p.1) = attrs) (hn : attrs.Nodup) :
    attrs.map (fun a => (a, fgetattr st a)) = st := by
  induction st generalizing attrs with
  | nil =>
    have : attrs = [] := by simpa using hk.symm
    rw [this]
    rfl
  | cons p rest ih =>
    cases attrs with
    | nil => simp at hk
    | cons b bs =>
      rw [List.map_cons] at hk
      have hb : p.1 = b := by
        injection hk
      have hbs : rest.map (fun p => p.1) = bs := by
        injection hk
      have hnb : ¬ b ∈ bs := (List.nodup_cons.mp hn).1
      have hn2 : bs.Nodup := (List.nodup_cons.mp hn).2
      rw [List.map_cons]
      have hhead : (b, fgetattr (p :: rest) b) = p := by
        have hget : fgetattr (p :: rest) b = p.2 := by
          simp [fgetattr, List.find?, hb]
        rw [hget]
        obtain ⟨p1, p2⟩ := p
        simp only at hb
        rw [hb]
      rw [hhead]
      have htail : bs.map (fun a => (a, fgetattr (p :: rest) a)) =
          bs.map (fun a => (a, fgetattr rest a)) := by
        apply List.map_congr_left
        intro a hamem
        have hab : ¬ p.1 = a := by
          rw [hb]
          intro hcon
          exact hnb (hcon ▸ hamem)
        simp [fgetattr, List.find?, hab]
      rw [htail, ih bs hbs hn2]

theorem lookupKw_none (l : List (String × PyVal)) (k : String)
    (h : ∀ q ∈ l, ¬ q.1 = k) : lookupKw l k = Option.none := by
  induction l with
  | nil => rfl
  | cons p rest ih =>
    have hp := h p (List.mem_cons_self p rest)
    simpa [lookupKw, List.find?, hp] using ih (fun q hq => h q (List.mem_cons_of_mem p hq))

theorem construct_kwargs_ok (desc : FieldDesc) (st : FieldState) (hd : DescWF desc)
    (hst : StateWF desc st) (extra : List (String × PyVal))
    (hexk : ∀ q ∈ extra, ∀ a ∈ storedAttrs desc, ¬ q.1 = paramName a) :
    construct desc (kwargsMain desc st ++ extra) = .ok st := by
  have hn1 := hd.1
  have hn2 := hd.2.1
  have hempty := hd.2.2.2.2.2.2.2.2.2.2
  unfold construct
  have hca := constructAttrs_ok desc (kwargsMain desc st ++ extra) (fun a => fgetattr st a)
    (storedAttrs desc) (fun a ha => by
      have hlook := lookupKw_kwargsMain desc st hn2 a ha
      have hvwf := stateWF_attr desc st hst a ha
      rw [lookupKw_append, hlook]
      cases hemit : emitVal (fgetattr st a) with
      | some jv =>
        show setVal desc a ((match ((some jv).map (fun _ => fgetattr st a)) with
          | some v => some v
          | Option.none => lookupKw extra (paramName a)).getD .none) = _
        simp only [Option.map_some', Option.getD_some]
        exact setVal_wf desc a _ hvwf
      | none =>
        have hexlook : lookupKw extra (paramName a) = Option.none :=
          lookupKw_none extra (paramName a) (fun q hq => hexk q hq a ha)
        show setVal desc a ((match ((Option.none : Option JVal).map
            (fun _ => fgetattr st a)) with
          | some v => some v
          | Option.none => lookupKw extra (paramName a)).getD .none) = _
        rw [show ((Option.none : Option JVal).map (fun _ => fgetattr st a)) =
          Option.none from rfl]
        rw [hexlook]
        have hvnone : fgetattr st a = .none :=
          emit_none_of_wf desc a _ hempty hvwf hemit
        show setVal desc a PyVal.none = Except.ok (fgetattr st a)
        rw [hvnone] at hvwf
        rw [hvnone]
        exact setVal_wf desc a .none hvwf)
  rw [hca]
  rw [map_fst_eq_self st (storedAttrs desc) hst.1 hn1]

theorem decodeItems_mainDict (desc : FieldDesc) (st : FieldState) (hd : DescWF desc)
    (hst : StateWF desc st) (hdtf : datetimeFree st = true) :
    decodeItems (mainDict desc st) = .ok (kwargsMain desc st) := by
  have hstrip := hd.2.2.2.2.1
  have hempty := hd.2.2.2.2.2.2.2.2.2.2
  unfold mainDict kwargsMain
  apply decodeItems_filterMap
  intro pa hpa
  obtain ⟨hfst, hsnd⟩ := mem_prefixedAttrs desc pa hpa
  cases hemit : emitVal (fgetattr st pa.2) with
  | none => simp [hemit]
  | some jv =>
    simp only [hemit, Option.map_some']
    exact decodeEntry_emit desc hempty pa.1 pa.2 (hstrip pa.2 hsnd) hfst _
      (fun dd tt => datetimeFree_fgetattr st hdtf pa.2 dd tt)
      (stateWF_attr desc st hst pa.2 hsnd) jv hemit

theorem fieldFromDict_vs_error (desc : FieldDesc) (hd : DescWF desc) (st : FieldState)
    (hst : StateWF desc st) (d : PyDate) (t : Nat)
    (hget : fgetattr st "valid_since" = .pydatetime d t) :
    fieldFromDict desc (fieldToDict desc st) =
      .error (.valueError "time data does not match format") := by
  have herr : decodeEntry ("@" ++ "valid_since") (.str (datetimeToStr d t)) =
      .error (.valueError "time data does not match format") := by
    unfold decodeEntry
    rw [stripAt_at, if_neg (by decide), if_pos rfl]
    simp [strToDatetimeJ, strToDate_datetimeToStr, Except.map]
  have hgetE : emitVal (fgetattr st "valid_since") = some (JVal.str (datetimeToStr d t)) := by
    rw [hget]
    rfl
  have hmd : mainDict desc st =
      ("@" ++ "valid_since", JVal.str (datetimeToStr d t)) ::
        List.filterMap
          (fun pa => (emitVal (fgetattr st pa.2)).map (fun jv => (pa.1 ++ pa.2, jv)))
          (("@", "inferred") :: ("@", "last_seen") :: ("@", "current") ::
            (desc.attributes.map (fun a => ("@", a)) ++
              desc.children.map (fun a => ("", a)))) := by
    unfold mainDict prefixedAttrs baseAttributes
    simp only [List.map_cons, List.map_nil, List.cons_append, List.nil_append]
    rw [List.filterMap_cons]
    simp only [hgetE, Option.map_some']
  unfold fieldFromDict
  rw [fieldToDict_eq desc st hd hst, hmd, List.cons_append]
  have hitems := decodeItems_error_mid [] [] ("@" ++ "valid_since")
    (JVal.str (datetimeToStr d t))
    (List.filterMap
      (fun pa => (emitVal (fgetattr st pa.2)).map (fun jv => (pa.1 ++ pa.2, jv)))
      (("@", "inferred") :: ("@", "last_seen") :: ("@", "current") ::
        (desc.attributes.map (fun a => ("@", a)) ++
          desc.children.map (fun a => ("", a)))) ++ displayExtra desc st)
    (.valueError "time data does not match format") rfl herr
  rw [List.nil_append] at hitems
  rw [hitems]
  simp [bind, Except.bind]

theorem fieldFromDict_ls_error (desc : FieldDesc) (hd : DescWF desc) (st : FieldState)
    (hst : StateWF desc st) (d : PyDate) (t : Nat)
    (hvs : fgetattr st "valid_since" = PyVal.none)
    (hget : fgetattr st "last_seen" = .pydatetime d t) :
    fieldFromDict desc (fieldToDict desc st) =
      .error (.valueError "time data does not match format") := by
  have herr : decodeEntry ("@" ++ "last_seen") (.str (datetimeToStr d t)) =
      .error (.valueError "time data does not match format") := by
    unfold decodeEntry
    rw [stripAt_at, if_neg (by decide), if_neg (by decide), if_pos rfl]
    simp [strToDatetimeJ, strToDate_datetimeToStr, Except.map]
  have hvsE : emitVal (fgetattr st "valid_since") = Option.none := by
    rw [hvs]
    rfl
  have hgetE : emitVal (fgetattr st "last_seen") = some (JVal.str (datetimeToStr d t)) := by
    rw [hget]
    rfl
  unfold fieldFromDict
  rw [fieldToDict_eq desc st hd hst]
  cases hinf : emitVal (fgetattr st "inferred") with
  | none =>
    have hmd : mainDict desc st =
        ("@" ++ "last_seen", JVal.str (datetimeToStr d t)) ::
          List.filterMap
            (fun pa => (emitVal (fgetattr st pa.2)).map (fun jv => (pa.1 ++ pa.2, jv)))
            (("@", "current") ::
              (desc.attributes.map (fun a => ("@", a)) ++
                desc.children.map (fun a => ("", a)))) := by
      unfold mainDict prefixedAttrs baseAttributes
      simp only [List.map_cons, List.map_nil, List.cons_append, List.nil_append]
      rw [List.filterMap_cons]
      simp only [hvsE, Option.map_none']
      rw [List.filterMap_cons]
      simp only [hinf, Option.map_none']
      rw [List.filterMap_cons]
      simp only [hgetE, Option.map_some']
    rw [hmd, List.cons_append]
    have hitems := decodeItems_error_mid [] [] ("@" ++ "last_seen")
      (JVal.str (datetimeToStr d t))
      (List.filterMap
        (fun pa => (emitVal (fgetattr st pa.2)).map (fun jv => (pa.1 ++ pa.2, jv)))
        (("@", "current") ::
          (desc.attributes.map (fun a => ("@", a)) ++
            desc.children.map (fun a => ("", a)))) ++ displayExtra desc st)
      (.valueError "time data does not match format") rfl herr
    rw [List.nil_append] at hitems
    rw [hitems]
    simp [bind, Except.bind]
  | some jv =>
    have hdecInf : decodeEntry ("@" ++ "inferred") jv = .ok ("inferred", jvalToPyVal jv) := by
      unfold decodeEntry
      rw [stripAt_at, if_neg (by decide), if_neg (by decide), if_neg (by decide),
        if_neg (by decide)]
    have hone : decodeItems [("@" ++ "inferred", jv)] = .ok [("inferred", jvalToPyVal jv)] := by
      unfold decodeItems
      rw [hdecInf]
      simp [decodeItems, bind, Except.bind, pure, Except.pure]
    have hmd : mainDict desc st =
        ("@" ++ "inferred", jv) :: ("@" ++ "last_seen", JVal.str (datetimeToStr d t)) ::
          List.filterMap
            (fun pa => (emitVal (fgetattr st pa.2)).map (fun jv => (pa.1 ++ pa.2, jv)))
            (("@", "current") ::
              (desc.attributes.map (fun a => ("@", a)) ++
                desc.children.map (fun a => ("", a)))) := by
      unfold mainDict prefixedAttrs baseAttributes
      simp only [List.map_cons, List.map_nil, List.cons_append, List.nil_append]
      rw [List.filterMap_cons]
      simp only [hvsE, Option.map_none']
      rw [List.filterMap_cons]
      simp only [hinf, Option.map_some']
      rw [List.filterMap_cons]
      simp only [hgetE, Option.map_some']
    rw [hmd]
    have hitems := decodeItems_error_mid [("@" ++ "inferred", jv)]
      [("inferred", jvalToPyVal jv)] ("@" ++ "last_seen") (JVal.str (datetimeToStr d t))
      (List.filterMap
        (fun pa => (emitVal (fgetattr st pa.2)).map (fun jv => (pa.1 ++ pa.2, jv)))
        (("@", "current") ::
          (desc.attributes.map (fun a => ("@", a)) ++
            desc.children.map (fun a => ("", a)))) ++ displayExtra desc st)
      (.valueError "time data does not match format") hone herr
    have hsh : (("@" ++ "inferred", jv) ::
        ("@" ++ "last_seen", JVal.str (datetimeToStr d t)) ::
          List.filterMap
            (fun pa => (emitVal (fgetattr st pa.2)).map (fun jv => (pa.1 ++ pa.2, jv)))
            (("@", "current") ::
              (desc.attributes.map (fun a => ("@", a)) ++
                desc.children.map (fun a => ("", a))))) ++ displayExtra desc st =
        [("@" ++ "inferred", jv)] ++ ("@" ++ "last_seen", JVal.str (datetimeToStr d t)) ::
          (List.filterMap
            (fun pa => (emitVal (fgetattr st pa.2)).map (fun jv => (pa.1 ++ pa.2, jv)))
            (("@", "current") ::
              (desc.attributes.map (fun a => ("@", a)) ++
                desc.children.map (fun a => ("", a)))) ++ displayExtra desc st) := by
      simp
    rw [hsh, hitems]
    simp [bind, Except.bind]

/-- A populated `valid_since`/`last_seen` always makes the round trip raise:
`to_dict` emits the datetime's `isoformat()` (with the `T HH:MM:SS` tail),
which `str_to_datetime` cannot parse back. -/
theorem fieldFromDict_datetime_raises (desc : FieldDesc) (hd : DescWF desc)
    (st : FieldState) (hst : StateWF desc st) (hndf : ¬ datetimeFree st = true) :
    fieldFromDict desc (fieldToDict desc st) =
      .error (.valueError "time data does not match format") := by
  have hex : ∃ p ∈ st, isPydatetime p.2 = true := by
    by_contra hno
    push_neg at hno
    apply hndf
    unfold datetimeFree
    rw [List.all_eq_true]
    intro p hp
    have h2 : isPydatetime p.2 = false := by
      cases hb : isPydatetime p.2
      · rfl
      · exact absurd hb (hno p hp)
    simp only [h2]
    rfl
  obtain ⟨p, hp, hpdt⟩ := hex
  obtain ⟨d, t, hv⟩ : ∃ d t, p.2 = PyVal.pydatetime d t := by
    cases hv : p.2 with
    | pydatetime d t => exact ⟨d, t, rfl⟩
    | none => rw [hv] at hpdt; exact Bool.noConfusion hpdt
    | str s => rw [hv] at hpdt; exact Bool.noConfusion hpdt
    | int n => rw [hv] at hpdt; exact Bool.noConfusion hpdt
    | bool b => rw [hv] at hpdt; exact Bool.noConfusion hpdt
    | floatv q => rw [hv] at hpdt; exact Bool.noConfusion hpdt
    | pydate dd => rw [hv] at hpdt; exact Bool.noConfusion hpdt
    | drange r => rw [hv] at hpdt; exact Bool.noConfusion hpdt
    | pdict kvs => rw [hv] at hpdt; exact Bool.noConfusion hpdt
  have hwfp := hst.2 p hp
  rw [hv] at hwfp
  have hnk : (st.map (fun q => q.1)).Nodup := by
    rw [hst.1]
    exact hd.1
  have hget : fgetattr st p.1 = PyVal.pydatetime d t := by
    rw [fgetattr_of_mem st hnk p hp]
    exact hv
  rcases attrValWF_pydatetime_key desc p.1 d t hwfp with hkey | hkey
  · rw [hkey] at hget
    exact fieldFromDict_vs_error desc hd st hst d t hget
  · rw [hkey] at hget
    have hvsmem : "valid_since" ∈ storedAttrs desc :=
      List.mem_append_left _ (List.mem_append_left _ (by decide))
    have hvswf := stateWF_attr desc st hst "valid_since" hvsmem
    rcases attrValWF_vs_shape desc "valid_since" (Or.inl rfl) _ hvswf with hvsn | ⟨d2, t2, hvsd⟩
    · exact fieldFromDict_ls_error desc hd st hst d t hvsn hget
    · exact fieldFromDict_vs_error desc hd st hst d2 t2 hvsd

/-- C4: every variant whose `content` is stored plainly constructs fine with
no arguments, yielding an all-`None` state; but `Gender()` and `Ethnicity()`
raise `AttributeError` (`None.lower()`), contradicting their own `content=None`
defaults and the spec's "all arguments optional". -/
theorem C4_no_arg_construction :
    (∀ desc, desc.contentRule = .plain →
      construct desc [] = .ok ((storedAttrs desc).map (fun a => (a, PyVal.none)))) ∧
    construct genderDesc [] = .error .attributeError ∧
    construct ethnicityDesc [] = .error .attributeError := by
  refine ⟨?_, by decide, by decide⟩
  intro desc hrule
  unfold construct
  apply constructAttrs_ok desc [] (fun _ => PyVal.none)
  intro a ha
  show setVal desc a PyVal.none = .ok PyVal.none
  unfold setVal
  by_cases h1 : a = "type"
  · rw [if_pos h1]
    rfl
  · rw [if_neg h1]
    by_cases h2 : a = "content"
    · rw [if_pos h2, hrule]
    · rw [if_neg h2]

/-- C4 (witness): `Name()` succeeds with all attributes `None`. -/
theorem C4_witness :
    construct nameDesc [] = .ok ((storedAttrs nameDesc).map (fun a => (a, PyVal.none))) :=
  C4_no_arg_construction.1 nameDesc rfl
